import Mathlib

/-!
Verification of the ResumeOptimizer backend against its specification.

The Python sources under `backend/app` are shallowly embedded below:
pure string manipulation becomes functions on `List Char` / `String`,
the Pydantic data model becomes Lean structures, the two renderers
become functions from the model to strings / abstract flowable lists,
and the fallible collaborators (the text-completion oracle, the PDF
byte extractor) become explicit `Except`-valued parameters, so that the
services are total functions of the collaborator outcome.  Python's
`uuid.uuid4()` id generation is modelled by a deterministic counter
threaded through the extraction pipeline.
-/

/-! ## Basic string utilities -/

/-- Boolean test that `pat` is a prefix of `l` (used to model both
`str.startswith` and anchored regular-expression matching). -/
def leadsWith : List Char → List Char → Bool
  | [], _ => true
  | _ :: _, [] => false
  | a :: as, b :: bs => a == b && leadsWith as bs

/-- Boolean test that `t` is a suffix of `l`. -/
def trailsWith (l t : List Char) : Bool :=
  leadsWith t.reverse l.reverse

/-- Boolean test that `pat` occurs contiguously inside `l` (the model of
an unanchored regular-expression search for a literal). -/
def containsSeg (pat : List Char) : List Char → Bool
  | [] => leadsWith pat []
  | c :: cs => leadsWith pat (c :: cs) || containsSeg pat cs

theorem leadsWith_length {pat l : List Char} (h : leadsWith pat l = true) :
    pat.length ≤ l.length := by
  induction pat generalizing l with
  | nil => simp
  | cons a as ih =>
    cases l with
    | nil => simp [leadsWith] at h
    | cons b bs =>
      simp only [leadsWith, Bool.and_eq_true] at h
      simpa [Nat.succ_le_succ_iff] using ih h.2

/-- Fuelled worker for the leftmost, non-overlapping replacement of the
non-empty pattern `p :: ps` by `rep`: the scan moves left to right and
never rescans emitted replacement text — the semantics of Python's
`str.replace`.  The fuel only forces structural recursion; it is
initialized to the input length, which every recursive call respects. -/
def replaceAuxF (p : Char) (ps rep : List Char) : Nat → List Char → List Char
  | _, [] => []
  | 0, l => l
  | fuel + 1, c :: cs =>
    if leadsWith (p :: ps) (c :: cs) then
      rep ++ replaceAuxF p ps rep fuel ((c :: cs).drop (ps.length + 1))
    else c :: replaceAuxF p ps rep fuel cs

/-- Replacement entry point with the fuel fixed to the input length. -/
def replaceAux (p : Char) (ps rep l : List Char) : List Char :=
  replaceAuxF p ps rep l.length l

theorem replaceAuxF_congr (p : Char) (ps rep : List Char) :
    ∀ (f₁ : Nat) (l : List Char) (f₂ : Nat), l.length ≤ f₁ → l.length ≤ f₂ →
      replaceAuxF p ps rep f₁ l = replaceAuxF p ps rep f₂ l := by
  intro f₁
  induction f₁ with
  | zero =>
    intro l f₂ h₁ _
    have : l = [] := List.length_eq_zero.mp (Nat.le_zero.mp h₁)
    subst this
    cases f₂ <;> rfl
  | succ g ih =>
    intro l f₂ h₁ h₂
    cases l with
    | nil => cases f₂ <;> rfl
    | cons c cs =>
      cases f₂ with
      | zero => simp at h₂
      | succ g₂ =>
        rw [replaceAuxF, replaceAuxF]
        simp only [List.length_cons] at h₁ h₂
        split
        · next hlw =>
          have hplen := leadsWith_length hlw
          simp only [List.length_cons] at hplen
          have hd : ((c :: cs).drop (ps.length + 1)).length ≤ g := by
            simp only [List.length_cons, List.length_drop]
            omega
          have hd₂ : ((c :: cs).drop (ps.length + 1)).length ≤ g₂ := by
            simp only [List.length_cons, List.length_drop]
            omega
          rw [ih _ _ hd hd₂]
        · rw [ih cs g₂ (by omega) (by omega)]

/-- Unfolding equation of `replaceAux` on a cons cell. -/
theorem replaceAux_cons (p : Char) (ps rep : List Char) (c : Char) (cs : List Char) :
    replaceAux p ps rep (c :: cs) =
      if leadsWith (p :: ps) (c :: cs) then
        rep ++ replaceAux p ps rep ((c :: cs).drop (ps.length + 1))
      else c :: replaceAux p ps rep cs := by
  show replaceAuxF p ps rep (cs.length + 1) (c :: cs) = _
  rw [replaceAuxF]
  split
  · next hlw =>
    have hplen := leadsWith_length hlw
    simp only [List.length_cons] at hplen
    rw [replaceAuxF_congr p ps rep cs.length _ ((c :: cs).drop (ps.length + 1)).length
      (by simp only [List.length_cons, List.length_drop]; omega) (le_refl _)]
    rfl
  · rw [replaceAuxF_congr p ps rep cs.length cs cs.length (le_refl _) (le_refl _)]
    rfl

/-- Python `text.replace(pat, rep)`; an empty pattern is never used by
the embedded code and is mapped to the identity. -/
def replaceSeq (pat rep l : List Char) : List Char :=
  match pat with
  | [] => l
  | p :: ps => replaceAux p ps rep l

/-- Number of occurrences of a character. -/
def countChar (c : Char) (l : List Char) : Nat :=
  l.count c

/-! ## Document model (backend/app/models/resume.py)

Field names and optionality follow the Pydantic classes exactly.  The
`id` fields are strings produced by `uuid.uuid4()` in Python; here they
are strings produced from a deterministic counter.  `created_at` /
`updated_at` timestamps are omitted: no embedded operation reads them. -/

inductive SectionType where
  | summary | experience | education | skills | projects
  | certifications | languages | custom
deriving DecidableEq, Repr

structure Bullet where
  id : String
  text : String
  order : Int
deriving DecidableEq, Repr

structure SkillCategory where
  name : String
  skills : List String
deriving DecidableEq, Repr

structure ExperienceItem where
  company : String
  role : String
  location : Option String := none
  start_date : String
  end_date : Option String := none
  bullets : List Bullet := []
deriving DecidableEq, Repr

structure EducationItem where
  institution : String
  degree : String
  field : Option String := none
  location : Option String := none
  start_date : Option String := none
  end_date : String
  gpa : Option String := none
  bullets : List Bullet := []
deriving DecidableEq, Repr

structure SkillsItem where
  categories : List SkillCategory := []
deriving DecidableEq, Repr

structure SummaryItem where
  text : String
deriving DecidableEq, Repr

structure ProjectItem where
  name : String
  description : Option String := none
  technologies : Option (List String) := none
  url : Option String := none
  bullets : List Bullet := []
deriving DecidableEq, Repr

structure CustomItem where
  title : Option String := none
  subtitle : Option String := none
  date_range : Option String := none
  location : Option String := none
  bullets : List Bullet := []
deriving DecidableEq, Repr

inductive ItemContent where
  | experience (item : ExperienceItem)
  | education (item : EducationItem)
  | skills (item : SkillsItem)
  | summary (item : SummaryItem)
  | project (item : ProjectItem)
  | custom (item : CustomItem)
deriving DecidableEq, Repr

structure SectionItem where
  id : String
  order : Int
  content : ItemContent
deriving DecidableEq, Repr

structure ResumeSection where
  id : String
  type : SectionType
  title : String
  order : Int
  items : List SectionItem := []
deriving DecidableEq, Repr

structure ResumeMetadata where
  name : String
  location : Option String := none
  email : Option String := none
  phone : Option String := none
  linkedin : Option String := none
  website : Option String := none
  github : Option String := none
deriving DecidableEq, Repr

structure Resume where
  id : String
  metadata : ResumeMetadata
  sections : List ResumeSection := []
  version : Int := 1
deriving DecidableEq, Repr

/-! ## Sibling ordering

Both renderers emit sibling collections via Python's stable
`sorted(xs, key=lambda x: x.order)`, modelled by the stable
`List.mergeSort` on the integer order key. -/

/-- Python `sorted(l, key=...)` with an integer key. -/
def sortByOrder (key : α → Int) (l : List α) : List α :=
  l.mergeSort (fun a b => key a ≤ key b)

theorem sortByOrder_perm (key : α → Int) (l : List α) :
    (sortByOrder key l).Perm l :=
  List.mergeSort_perm l _

@[simp] theorem sortByOrder_nil (key : α → Int) :
    sortByOrder key ([] : List α) = [] := by
  simp [sortByOrder]

@[simp] theorem sortByOrder_singleton (key : α → Int) (a : α) :
    sortByOrder key [a] = [a] := by
  simp [sortByOrder]

theorem sortByOrder_pairwise_le (key : α → Int) (l : List α) :
    (sortByOrder key l).Pairwise (fun a b => key a ≤ key b) := by
  have h := @List.sorted_mergeSort _ (fun a b => decide (key a ≤ key b)) ?_ ?_ l
  · refine h.imp ?_
    intro a b hab
    simpa using hab
  · intro a b c hab hbc
    simp only [decide_eq_true_eq] at *
    omega
  · intro a b
    simp only [Bool.or_eq_true, decide_eq_true_eq]
    omega

/-- Two lists that are permutations of one another and both strictly
sorted on an integer key are equal. -/
theorem eq_of_perm_of_pairwise_lt {β : Type*} (key : β → Int) :
    ∀ {l₁ l₂ : List β}, l₁.Perm l₂ →
      l₁.Pairwise (fun a b => key a < key b) →
      l₂.Pairwise (fun a b => key a < key b) → l₁ = l₂ := by
  intro l₁
  induction l₁ with
  | nil =>
    intro l₂ hp _ _
    exact (List.Perm.eq_nil hp.symm).symm
  | cons a t₁ ih =>
    intro l₂ hp h₁ h₂
    cases l₂ with
    | nil => exact absurd (List.Perm.eq_nil hp) (by simp)
    | cons b t₂ =>
      by_cases hab : a = b
      · subst hab
        have ht := hp.cons_inv
        have := ih ht (List.Pairwise.of_cons h₁) (List.Pairwise.of_cons h₂)
        rw [this]
      · exfalso
        have ha2 : a ∈ b :: t₂ := hp.mem_iff.mp (List.mem_cons_self a t₁)
        have ha2' : a ∈ t₂ := by
          rcases List.mem_cons.mp ha2 with h | h
          · exact absurd h hab
          · exact h
        have hb1 : b ∈ a :: t₁ := hp.symm.mem_iff.mp (List.mem_cons_self b t₂)
        have hb1' : b ∈ t₁ := by
          rcases List.mem_cons.mp hb1 with h | h
          · exact absurd h.symm hab
          · exact h
        have hlt₁ : key a < key b := (List.pairwise_cons.mp h₁).1 b hb1'
        have hlt₂ : key b < key a := (List.pairwise_cons.mp h₂).1 a ha2'
        omega

theorem pairwise_lt_of_le_nodup {β : Type*} (key : β → Int) {l : List β}
    (hle : l.Pairwise (fun a b => key a ≤ key b))
    (hnd : (l.map key).Nodup) :
    l.Pairwise (fun a b => key a < key b) := by
  have hne : l.Pairwise (fun a b => key a ≠ key b) := by
    rw [List.Nodup, List.pairwise_map] at hnd
    exact hnd
  refine (hle.and hne).imp ?_
  intro a b hab
  exact lt_of_le_of_ne hab.1 hab.2

/-- The sorted output of a sibling collection is a function of the
multiset of (order key, rendered value) pairs, provided the keys are
distinct: this is the kernel of the permutation-invariance property of
the rendering pipeline. -/
theorem map_sortByOrder_congr {α β : Type*} (key : α → Int) (g : α → β)
    {l₁ l₂ : List α}
    (hperm : (l₁.map fun x => (key x, g x)).Perm (l₂.map fun x => (key x, g x)))
    (hnd : (l₁.map key).Nodup) :
    (sortByOrder key l₁).map g = (sortByOrder key l₂).map g := by
  have hnd₂ : (l₂.map key).Nodup := by
    have hmk : (l₁.map key).Perm (l₂.map key) := by
      have := hperm.map Prod.fst
      simpa [List.map_map, Function.comp] using this
    exact hmk.nodup hnd
  have hp₁ : ((sortByOrder key l₁).map fun x => (key x, g x)).Perm
      (l₁.map fun x => (key x, g x)) := (sortByOrder_perm key l₁).map _
  have hp₂ : ((sortByOrder key l₂).map fun x => (key x, g x)).Perm
      (l₂.map fun x => (key x, g x)) := (sortByOrder_perm key l₂).map _
  have hchain : ((sortByOrder key l₁).map fun x => (key x, g x)).Perm
      ((sortByOrder key l₂).map fun x => (key x, g x)) :=
    (hp₁.trans hperm).trans hp₂.symm
  have hnds₁ : ((sortByOrder key l₁).map key).Nodup :=
    (((sortByOrder_perm key l₁).map key).nodup_iff).mpr hnd
  have hnds₂ : ((sortByOrder key l₂).map key).Nodup :=
    (((sortByOrder_perm key l₂).map key).nodup_iff).mpr hnd₂
  have hlt₁ : ((sortByOrder key l₁).map fun x => (key x, g x)).Pairwise
      (fun u v => u.1 < v.1) := by
    rw [List.pairwise_map]
    exact pairwise_lt_of_le_nodup key (sortByOrder_pairwise_le key l₁) hnds₁
  have hlt₂ : ((sortByOrder key l₂).map fun x => (key x, g x)).Pairwise
      (fun u v => u.1 < v.1) := by
    rw [List.pairwise_map]
    exact pairwise_lt_of_le_nodup key (sortByOrder_pairwise_le key l₂) hnds₂
  have heq := eq_of_perm_of_pairwise_lt (Prod.fst) hchain hlt₁ hlt₂
  have := congrArg (List.map Prod.snd) heq
  simpa [List.map_map, Function.comp] using this

/-- The integer order keys `0, 1, …, n-1`. -/
def intRange (n : Nat) : List Int :=
  (List.range n).map Int.ofNat

theorem intRange_pairwise_lt (n : Nat) :
    (intRange n).Pairwise (fun a b : Int => a < b) := by
  rw [intRange, List.pairwise_map]
  exact (List.pairwise_lt_range n).imp (by intro a b h; exact Int.ofNat_lt.mpr h)

theorem intRange_nodup (n : Nat) : (intRange n).Nodup := by
  exact (intRange_pairwise_lt n).imp (by intro a b h; omega)

/-- When the sibling order keys form a permutation of `0..n-1`, the
rendered sibling sequence carries the keys in strictly ascending order
`0, 1, …, n-1`. -/
theorem sortByOrder_map_key_eq_intRange (key : α → Int) (l : List α)
    (h : (l.map key).Perm (intRange l.length)) :
    (sortByOrder key l).map key = intRange l.length := by
  have hperm : ((sortByOrder key l).map key).Perm (intRange l.length) :=
    ((sortByOrder_perm key l).map key).trans h
  have hnd : (l.map key).Nodup := h.symm.nodup (intRange_nodup _)
  have hnds : ((sortByOrder key l).map key).Nodup :=
    (((sortByOrder_perm key l).map key).nodup_iff).mpr hnd
  have hlt : ((sortByOrder key l).map key).Pairwise (fun a b : Int => a < b) := by
    have hle := sortByOrder_pairwise_le key l
    have := pairwise_lt_of_le_nodup key hle hnds
    rw [List.pairwise_map]
    exact this
  exact eq_of_perm_of_pairwise_lt (fun x : Int => x) hperm hlt (intRange_pairwise_lt _)

/-! ## LaTeX renderer (backend/app/services/latex_renderer.py)

The renderer is a pure function from the model to LaTeX source.  The
substitution table of `_escape_latex` is applied as a sequence of
whole-string replacements, in source order, exactly as Python's chained
`str.replace` calls do (later replacements do rescan the text produced
by earlier ones, which matters for the backslash entry). -/

/-- Substitution table of `LaTeXRenderer._escape_latex`, in source order. -/
def latexEscapePairs : List (List Char × List Char) :=
  [(['\\'], "\\textbackslash\x7b\x7d".data),
   (['&'], "\\&".data),
   (['%'], "\\%".data),
   (['$'], "\\$".data),
   (['#'], "\\#".data),
   (['_'], "\\_".data),
   (['\x7b'], "\\\x7b".data),
   (['\x7d'], "\\\x7d".data),
   (['~'], "\\textasciitilde\x7b\x7d".data),
   (['^'], "\\textasciicircum\x7b\x7d".data)]

/-- Sequential application of the substitution table to a character list. -/
def escLatexL (l : List Char) : List Char :=
  latexEscapePairs.foldl (fun acc pr => replaceSeq pr.1 pr.2 acc) l

/-- Model of `LaTeXRenderer._escape_latex`. -/
def latexEscape (s : String) : String :=
  if s = "" then "" else String.mk (escLatexL s.data)

/-- Python `self._escape_latex(x) if x else ""` for a required string field. -/
def lStrEsc (s : String) : String :=
  if s = "" then "" else latexEscape s

/-- Python `self._escape_latex(x) if x else ""` for an optional string field. -/
def lOptEsc (o : Option String) : String :=
  match o with
  | none => ""
  | some s => if s = "" then "" else latexEscape s

/-- Document preamble returned by `_get_preamble`. -/
def latexGetPreamble : String :=
  "\\documentclass[11pt,a4paper]\x7barticle\x7d\n\n% Packages\n\\usepackage[utf8]\x7binputenc\x7d\n\\usepackage[T1]\x7bfontenc\x7d\n\\usepackage\x7blmodern\x7d\n\\usepackage[margin=0.75in]\x7bgeometry\x7d\n\\usepackage\x7bhyperref\x7d\n\\usepackage\x7benumitem\x7d\n\\usepackage\x7btitlesec\x7d\n\\usepackage\x7bxcolor\x7d\n\\usepackage\x7bfontawesome5\x7d\n\n% Colors\n\\definecolor\x7bprimary\x7d\x7bRGB\x7d\x7b0, 82, 147\x7d\n\\definecolor\x7bsecondary\x7d\x7bRGB\x7d\x7b100, 100, 100\x7d\n\n% Remove page numbers\n\\pagestyle\x7bempty\x7d\n\n% Section formatting\n\\titleformat\x7b\\section\x7d\x7b\\large\\bfseries\\color\x7bprimary\x7d\x7d\x7b\x7d\x7b0em\x7d\x7b\x7d[\\titlerule]\n\\titlespacing*\x7b\\section\x7d\x7b0pt\x7d\x7b12pt\x7d\x7b6pt\x7d\n\n% Hyperlink styling\n\\hypersetup\x7b\n    colorlinks=true,\n    linkcolor=primary,\n    urlcolor=primary\n\x7d\n\n% Compact lists\n\\setlist[itemize]\x7bleftmargin=*, nosep, topsep=0pt\x7d\n\n% Custom commands\n\\newcommand\x7b\\resumeEntry\x7d[4]\x7b\n    \\textbf\x7b#1\x7d \\hfill #2 \\\\\n    \\textit\x7b#3\x7d \\hfill \\textit\x7b#4\x7d\n\x7d\n\n\\begin\x7bdocument\x7d\n\n"

/-- Document footer returned by `_get_footer`. -/
def latexGetFooter : String :=
  "\n\\end\x7bdocument\x7d\n"

/-- Model of `_render_header`: name block plus the inline contact list in
the fixed field order location, phone, email, linkedin, github, website. -/
def latexRenderHeader (m : ResumeMetadata) : String :=
  let name := latexEscape m.name
  let header := "\n\\begin\x7bcenter\x7d\n    \x7b\\Huge\\bfseries " ++ name ++ "\x7d\n    \n    \\vspace\x7b4pt\x7d\n    \n"
  let contact_parts : List String :=
    (match m.location with
     | some s => if s = "" then [] else ["\\faMapMarker*\\ " ++ latexEscape s]
     | none => []) ++
    (match m.phone with
     | some s => if s = "" then [] else ["\\faPhone*\\ " ++ latexEscape s]
     | none => []) ++
    (match m.email with
     | some s => if s = "" then [] else
        [let email := latexEscape s
         "\\faEnvelope\\ \\href\x7bmailto:" ++ email ++ "\x7d\x7b" ++ email ++ "\x7d"]
     | none => []) ++
    (match m.linkedin with
     | some s => if s = "" then [] else
        [let linkedin := latexEscape s
         "\\faLinkedin\\ \\href\x7bhttps://" ++ linkedin ++ "\x7d\x7b" ++ linkedin ++ "\x7d"]
     | none => []) ++
    (match m.github with
     | some s => if s = "" then [] else
        [let github := latexEscape s
         "\\faGithub\\ \\href\x7bhttps://" ++ github ++ "\x7d\x7b" ++ github ++ "\x7d"]
     | none => []) ++
    (match m.website with
     | some s => if s = "" then [] else
        [let website := latexEscape s
         "\\faGlobe\\ \\href\x7bhttps://" ++ website ++ "\x7d\x7b" ++ website ++ "\x7d"]
     | none => [])
  let header :=
    if contact_parts ≠ [] then
      header ++ "    " ++ String.intercalate " $\\cdot$ " contact_parts ++ "\n"
    else header
  header ++ "\n\\end\x7bcenter\x7d\n\n\\vspace\x7b-8pt\x7d\n\n"

/-- Bullet list block shared by the per-variant LaTeX routines; bullets
are emitted in ascending `order`. -/
def latexBulletBlock (bs : List Bullet) : String :=
  "\\begin\x7bitemize\x7d\n" ++
  String.join ((sortByOrder (fun b => b.order) bs).map
    (fun b => "    \\item " ++ latexEscape b.text ++ "\n")) ++
  "\\end\x7bitemize\x7d\n"

/-- Python `self._escape_latex(item.end_date) if item.end_date else "Present"`
in `_render_experience_item`. -/
def latexExpEndDate : Option String → String
  | some s => if s = "" then "Present" else latexEscape s
  | none => "Present"

/-- Date range of `_render_experience_item`. -/
def latexExpDateRange (item : ExperienceItem) : String :=
  let start_date := lStrEsc item.start_date
  let end_date := latexExpEndDate item.end_date
  if start_date ≠ "" then start_date ++ " -- " ++ end_date else end_date

/-- Model of `_render_experience_item`. -/
def latexRenderExperienceItem (item : ExperienceItem) : String :=
  let company := lStrEsc item.company
  let role := latexEscape item.role
  let location := lOptEsc item.location
  let date_range := latexExpDateRange item
  let latex :=
    "\n\\textbf\x7b" ++ role ++ "\x7d \\hfill " ++ date_range ++ " \\\\\n\\textit\x7b" ++
      company ++ "\x7d \\hfill \\textit\x7b" ++ location ++ "\x7d\n"
  let latex := if item.bullets ≠ [] then latex ++ latexBulletBlock item.bullets else latex
  latex ++ "\\vspace\x7b4pt\x7d\n\n"

/-- Python `self._escape_latex(item.end_date) if item.end_date else ""` in
`_render_education_item`: an education entry with a falsy end date gets an
empty date field, not "Present". -/
def latexEduEndDate (s : String) : String :=
  if s = "" then "" else latexEscape s

/-- Model of `_render_education_item`. -/
def latexRenderEducationItem (item : EducationItem) : String :=
  let institution := latexEscape item.institution
  let degree := latexEscape item.degree
  let field := lOptEsc item.field
  let location := lOptEsc item.location
  let end_date := latexEduEndDate item.end_date
  let degree_line := if field ≠ "" then degree ++ " in " ++ field else degree
  let latex :=
    "\n\\textbf\x7b" ++ institution ++ "\x7d \\hfill " ++ location ++ " \\\\\n\\textit\x7b" ++
      degree_line ++ "\x7d \\hfill \\textit\x7b" ++ end_date ++ "\x7d\n"
  let latex := latex ++
    (match item.gpa with
     | some g => if g = "" then "" else "\\\\ GPA: " ++ latexEscape g ++ "\n"
     | none => "")
  let latex := if item.bullets ≠ [] then latex ++ latexBulletBlock item.bullets else latex
  latex ++ "\\vspace\x7b4pt\x7d\n\n"

/-- Model of `_render_skills_item`. -/
def latexRenderSkillsItem (item : SkillsItem) : String :=
  String.join (item.categories.map (fun category =>
    "\\textbf\x7b" ++ latexEscape category.name ++ ":\x7d " ++
    String.intercalate ", " (category.skills.map latexEscape) ++ " \\\\" ++ "\n")) ++
  "\\vspace\x7b4pt\x7d\n\n"

/-- Model of `_render_summary_item`. -/
def latexRenderSummaryItem (item : SummaryItem) : String :=
  latexEscape item.text ++ "\n\n" ++ "\\vspace\x7b4pt\x7d" ++ "\n\n"

/-- Model of `_render_project_item`. -/
def latexRenderProjectItem (item : ProjectItem) : String :=
  let name := latexEscape item.name
  let latex := "\\textbf\x7b" ++ name ++ "\x7d"
  let latex := latex ++
    (match item.technologies with
     | some ts =>
        if ts = [] then ""
        else " \\textit\x7b(" ++ String.intercalate ", " (ts.map latexEscape) ++ ")\x7d"
     | none => "")
  let latex := latex ++
    (match item.url with
     | some u =>
        if u = "" then ""
        else
          let url := latexEscape u
          " -- \\href\x7b" ++ url ++ "\x7d\x7b" ++ url ++ "\x7d"
     | none => "")
  let latex := latex ++ "\n"
  let latex := latex ++
    (match item.description with
     | some d => if d = "" then "" else "\\\\ " ++ latexEscape d ++ "\n"
     | none => "")
  let latex := if item.bullets ≠ [] then latex ++ latexBulletBlock item.bullets else latex
  latex ++ "\\vspace\x7b4pt\x7d\n\n"

/-- Model of `_render_custom_item`. -/
def latexRenderCustomItem (item : CustomItem) : String :=
  let latex := ""
  let latex := latex ++
    (match item.title with
     | some t =>
        if t = "" then ""
        else
          "\\textbf\x7b" ++ latexEscape t ++ "\x7d" ++
          (match item.date_range with
           | some d => if d = "" then "" else " \\hfill " ++ latexEscape d
           | none => "") ++ "\n"
     | none => "")
  let latex := latex ++
    (match item.subtitle with
     | some st =>
        if st = "" then ""
        else
          "\\textit\x7b" ++ latexEscape st ++ "\x7d" ++
          (match item.location with
           | some lo => if lo = "" then "" else " \\hfill \\textit\x7b" ++ latexEscape lo ++ "\x7d"
           | none => "") ++ "\n"
     | none => "")
  let latex := if item.bullets ≠ [] then latex ++ latexBulletBlock item.bullets else latex
  latex ++ "\\vspace\x7b4pt\x7d\n\n"

/-- Dispatch of `_render_item` on the content variant tag. -/
def latexRenderItem (_stype : SectionType) (it : SectionItem) : String :=
  match it.content with
  | .experience e => latexRenderExperienceItem e
  | .education e => latexRenderEducationItem e
  | .skills e => latexRenderSkillsItem e
  | .summary e => latexRenderSummaryItem e
  | .project e => latexRenderProjectItem e
  | .custom e => latexRenderCustomItem e

/-- Model of `_render_section`: section items are emitted in ascending
`order`. -/
def latexRenderSection (s : ResumeSection) : String :=
  let title := latexEscape s.title
  "\\section\x7b" ++ title ++ "\x7d" ++ "\n\n" ++
  String.join ((sortByOrder (fun i => i.order) s.items).map (latexRenderItem s.type)) ++
  "\n"

/-- Model of `LaTeXRenderer.render`: sections in ascending `order`. -/
def latexRender (r : Resume) : String :=
  latexGetPreamble ++ latexRenderHeader r.metadata ++
  String.join ((sortByOrder (fun s => s.order) r.sections).map latexRenderSection) ++
  latexGetFooter

/-! ## Direct-layout PDF renderer (backend/app/services/pdf_renderer.py)

The ReportLab flowable story is abstracted to a list of `Flowable`
values: a `Paragraph` keeps its markup text and style name, a `Table`
keeps its grid of paragraph cells (the fixed `TableStyle` layout
constants carry no content and are dropped), and a `Spacer` keeps its
two numeric arguments. -/

inductive Flowable where
  | para (text style : String)
  | table (cells : List (String × String))
  | spacer (w h : Int)
deriving DecidableEq, Repr

/-- Substitution table of `PDFRenderer._escape`, in source order. -/
def xmlEscapePairs : List (List Char × List Char) :=
  [(['&'], "&amp;".data),
   (['<'], "&lt;".data),
   (['>'], "&gt;".data)]

/-- Sequential application of the XML substitution table. -/
def escXmlL (l : List Char) : List Char :=
  xmlEscapePairs.foldl (fun acc pr => replaceSeq pr.1 pr.2 acc) l

/-- Model of `PDFRenderer._escape`. -/
def pdfEscape (s : String) : String :=
  if s = "" then "" else String.mk (escXmlL s.data)

/-- Scan for the closing `**` of a bold span: the model of the lazy
group `(.+?)` of `re.sub(r'\*\*(.+?)\*\*', ...)` — the span content must
be non-empty, must not contain a newline, and the first possible closing
pair wins.  Returns the span content and the text after the closer. -/
def boldClose (acc : List Char) : List Char → Option (List Char × List Char)
  | [] => none
  | c :: cs =>
    if c == '*' && leadsWith ['*'] cs && !acc.isEmpty then
      some (acc.reverse, cs.drop 1)
    else if c == '\n' then none
    else boldClose (c :: acc) cs

/-- Fuelled model of `re.sub(r'\*\*(.+?)\*\*', r'<b>\1</b>', text)`:
every bold span is rewritten to a `<b>…</b>` element, unmatched `**`
markers are left in place, and scanning resumes after each rewritten
span.  The fuel only forces structural recursion; scanning always
consumes at least one character, so the input length suffices. -/
def boldSubF : Nat → List Char → List Char
  | _, [] => []
  | 0, l => l
  | fuel + 1, c :: cs =>
    if c == '*' && leadsWith ['*'] cs then
      match boldClose [] (cs.drop 1) with
      | some pr => "<b>".data ++ pr.1 ++ "</b>".data ++ boldSubF fuel pr.2
      | none => c :: boldSubF fuel cs
    else c :: boldSubF fuel cs

/-- Bold-span substitution with the fuel fixed to the input length. -/
def boldSubL (l : List Char) : List Char :=
  boldSubF l.length l

/-- Model of `PDFRenderer._parse_markdown`: escape first, then rewrite
bold spans. -/
def pdfParseMarkdown (s : String) : String :=
  if s = "" then "" else String.mk (boldSubL (pdfEscape s).data)

/-- One entry of the header contact line of `_build_header`. -/
def pdfContactPart (field value : String) : String :=
  let escaped := pdfEscape value
  if field = "email" then
    "<a href=\"mailto:" ++ escaped ++ "\">" ++ escaped ++ "</a>"
  else if field = "linkedin" ∨ field = "github" ∨ field = "website" ∨
      leadsWith "http".data value.data ∨ containsSeg "linkedin.com".data value.data then
    let url := if leadsWith "http".data escaped.data then escaped else "https://" ++ escaped
    "<a href=\"" ++ url ++ "\" color=\"blue\">" ++ escaped ++ "</a>"
  else escaped

/-- Model of `_build_header`: name paragraph, then the contact fields in
the fixed order location, phone, email, linkedin, github, website. -/
def pdfBuildHeader (m : ResumeMetadata) : List Flowable :=
  let name := pdfEscape m.name
  let contact_parts : List String :=
    (match m.location with
     | some v => if v = "" then [] else [pdfContactPart "location" v]
     | none => []) ++
    (match m.phone with
     | some v => if v = "" then [] else [pdfContactPart "phone" v]
     | none => []) ++
    (match m.email with
     | some v => if v = "" then [] else [pdfContactPart "email" v]
     | none => []) ++
    (match m.linkedin with
     | some v => if v = "" then [] else [pdfContactPart "linkedin" v]
     | none => []) ++
    (match m.github with
     | some v => if v = "" then [] else [pdfContactPart "github" v]
     | none => []) ++
    (match m.website with
     | some v => if v = "" then [] else [pdfContactPart "website" v]
     | none => [])
  [Flowable.para name "ResumeName"] ++
  (if contact_parts ≠ [] then
    [Flowable.para (String.intercalate "  •  " contact_parts) "Contact"]
   else []) ++
  [Flowable.spacer 1 4]

/-- Python `self._parse_markdown(self._get_attr(item, 'end_date', '') or 'Present')`
in `_build_experience_item`. -/
def pdfExpEndDate (o : Option String) : String :=
  pdfParseMarkdown (match o with
    | some s => if s = "" then "Present" else s
    | none => "Present")

/-- Date range of `_build_experience_item` (en dash separator). -/
def pdfExpDateRange (item : ExperienceItem) : String :=
  let start_date := pdfParseMarkdown item.start_date
  let end_date := pdfExpEndDate item.end_date
  if start_date ≠ "" then start_date ++ " – " ++ end_date else end_date

/-- Model of `_build_experience_item`. -/
def pdfBuildExperienceItem (item : ExperienceItem) : List Flowable :=
  let role := pdfParseMarkdown item.role
  let date_range := pdfExpDateRange item
  let company := pdfParseMarkdown item.company
  let location := pdfParseMarkdown (item.location.getD "")
  [Flowable.table [(role, "EntryTitle"), (date_range, "EntryDate")]] ++
  (if company ≠ "" ∨ location ≠ "" then
    [Flowable.table [(company, "EntrySubtitle"), (location, "EntryLocation")]]
   else []) ++
  ((sortByOrder (fun b => b.order) item.bullets).map
    (fun b => Flowable.para ("•  " ++ pdfParseMarkdown b.text) "ResumeBullet")) ++
  [Flowable.spacer 1 8]

/-- Model of `_build_education_item`: the end date paragraph carries the
escaped `end_date` verbatim — a falsy end date yields an empty date
paragraph, never "Present". -/
def pdfBuildEducationItem (item : EducationItem) : List Flowable :=
  let institution := pdfEscape item.institution
  let end_date := pdfEscape item.end_date
  let degree := pdfEscape item.degree
  let field := pdfEscape (item.field.getD "")
  let degree_text := degree ++ (if field ≠ "" then " in " ++ field else "")
  let degree_text := degree_text ++
    (match item.gpa with
     | some g => if g = "" then "" else " | GPA: " ++ pdfEscape g
     | none => "")
  [Flowable.table [(institution, "EntryTitle"), (end_date, "EntryDate")],
   Flowable.para degree_text "EntrySubtitle",
   Flowable.spacer 1 6] ++
  ((sortByOrder (fun b => b.order) item.bullets).map
    (fun b => Flowable.para ("•  " ++ pdfParseMarkdown b.text) "ResumeBullet"))

/-- Model of `_build_skills_item`. -/
def pdfBuildSkillsItem (item : SkillsItem) : List Flowable :=
  item.categories.map (fun category =>
    let cat_name := pdfParseMarkdown category.name
    let skills := String.intercalate ", " (category.skills.map pdfParseMarkdown)
    Flowable.para ("<b>" ++ cat_name ++ ":</b> " ++ skills) "Skills")

/-- Model of `_build_summary_item`. -/
def pdfBuildSummaryItem (item : SummaryItem) : List Flowable :=
  [Flowable.para (pdfEscape item.text) "Summary"]

/-- Model of `_build_project_item` (the `isinstance(technologies, str)`
branch is unreachable for the typed model, whose field is a string
list). -/
def pdfBuildProjectItem (item : ProjectItem) : List Flowable :=
  let name := pdfParseMarkdown item.name
  let title_text := "<b>" ++ name ++ "</b>"
  let title_text := title_text ++
    (match item.technologies with
     | some ts =>
        if ts = [] then ""
        else " <i>(" ++ String.intercalate ", " (ts.map pdfEscape) ++ ")</i>"
     | none => "")
  let description := pdfParseMarkdown (item.description.getD "")
  [Flowable.para title_text "EntryTitle"] ++
  (if description ≠ "" then [Flowable.para description "ResumeBullet"] else []) ++
  ((sortByOrder (fun b => b.order) item.bullets).map
    (fun b => Flowable.para ("•  " ++ pdfParseMarkdown b.text) "ResumeBullet")) ++
  [Flowable.spacer 1 4]

/-- Model of `_build_custom_item` (the `bulletText='•'` keyword of the
bullet paragraphs is folded into the style tag; the trailing fallback on
a `text` attribute is unreachable: `CustomItem` has no such field). -/
def pdfBuildCustomItem (item : CustomItem) : List Flowable :=
  let title := item.title.getD ""
  let subtitle := item.subtitle.getD ""
  let date_range := item.date_range.getD ""
  let location := item.location.getD ""
  [Flowable.table [(pdfParseMarkdown title, "EntryTitle"),
                   (pdfParseMarkdown date_range, "EntryDate")]] ++
  (if subtitle ≠ "" ∨ location ≠ "" then
    [Flowable.table [(pdfParseMarkdown subtitle, "EntrySubtitle"),
                     (pdfParseMarkdown location, "EntryDate")]]
   else []) ++
  (if item.bullets ≠ [] then
    ((sortByOrder (fun b => b.order) item.bullets).map
      (fun b => pdfParseMarkdown b.text)).filterMap
      (fun text => if text ≠ "" then some (Flowable.para text "ResumeBulletDot") else none)
   else []) ++
  [Flowable.spacer 1 4]

/-- Dispatch of `_build_item` on the content type tag. -/
def pdfBuildItem (it : SectionItem) : List Flowable :=
  match it.content with
  | .experience e => pdfBuildExperienceItem e
  | .education e => pdfBuildEducationItem e
  | .skills e => pdfBuildSkillsItem e
  | .summary e => pdfBuildSummaryItem e
  | .project e => pdfBuildProjectItem e
  | .custom e => pdfBuildCustomItem e

/-- Model of `_build_section`: title table, spacer, then the section
items in ascending `order`. -/
def pdfBuildSection (s : ResumeSection) : List Flowable :=
  [Flowable.table [(pdfEscape s.title.toUpper, "SectionTitle")],
   Flowable.spacer 1 12] ++
  List.flatten ((sortByOrder (fun i => i.order) s.items).map pdfBuildItem)

/-- Model of `render_pdf`: the full flowable story, header first, then
the sections in ascending `order`. -/
def pdfBuildStory (r : Resume) : List Flowable :=
  pdfBuildHeader r.metadata ++
  List.flatten ((sortByOrder (fun s => s.order) r.sections).map pdfBuildSection)

/-! ## Interpretation of escaped text

Modelled from the spec: the external typesetting compiler and the
direct-layout paint engine are boundary collaborators (only their
interfaces are specified), so the reading they give to escaped text is
modelled here from the spec's escaping round-trip property: each entry
of the fixed substitution table denotes the original literal character,
and every other character denotes itself. -/

/-- Modelled from the spec: the typesetting compiler's reading of a
rendered text fragment.  `\textbackslash` (with or without an empty
group), `\textasciitilde{}`, `\textasciicircum{}` and the single-char
escapes `\& \% \$ \# \_ \{ \}` denote the corresponding literal
character; an unknown control sequence is read as a literal backslash
followed by its text; any other character denotes itself.  Below,
`latexReadSingle` reads a single-character escape (or an unknown
control sequence) after a backslash, continuing with `k`. -/
def latexReadSingle (k : List Char → List Char) : List Char → List Char
  | d :: ds =>
    if d == '&' || d == '%' || d == '$' || d == '#' || d == '_' ||
       d == '\x7b' || d == '\x7d' then d :: k ds
    else '\\' :: k (d :: ds)
  | [] => ['\\']

def latexReadF : Nat → List Char → List Char
  | _, [] => []
  | 0, l => l
  | fuel + 1, c :: cs =>
    if c == '\\' then
      if leadsWith "textbackslash\x7b\x7d".data cs then '\\' :: latexReadF fuel (cs.drop 15)
      else if leadsWith "textbackslash".data cs then '\\' :: latexReadF fuel (cs.drop 13)
      else if leadsWith "textasciitilde\x7b\x7d".data cs then '~' :: latexReadF fuel (cs.drop 16)
      else if leadsWith "textasciicircum\x7b\x7d".data cs then '^' :: latexReadF fuel (cs.drop 17)
      else latexReadSingle (latexReadF fuel) cs
    else c :: latexReadF fuel cs

/-- The compiler reading with the fuel fixed to the input length (each
step consumes at least one character). -/
def latexReadL (l : List Char) : List Char :=
  latexReadF l.length l

theorem latexReadF_congr :
    ∀ (f₁ : Nat) (l : List Char) (f₂ : Nat), l.length ≤ f₁ → l.length ≤ f₂ →
      latexReadF f₁ l = latexReadF f₂ l := by
  intro f₁
  induction f₁ with
  | zero =>
    intro l f₂ h₁ _
    have : l = [] := List.length_eq_zero.mp (Nat.le_zero.mp h₁)
    subst this
    cases f₂ <;> rfl
  | succ g ih =>
    intro l f₂ h₁ h₂
    cases l with
    | nil => cases f₂ <;> rfl
    | cons c cs =>
      cases f₂ with
      | zero => simp at h₂
      | succ g₂ =>
        simp only [List.length_cons, Nat.add_le_add_iff_right] at h₁ h₂
        have hcs : ∀ n, (cs.drop n).length ≤ g ∧ (cs.drop n).length ≤ g₂ := by
          intro n
          simp only [List.length_drop]
          omega
        rw [latexReadF, latexReadF]
        split
        · split
          · rw [ih _ _ (hcs 15).1 (hcs 15).2]
          · split
            · rw [ih _ _ (hcs 13).1 (hcs 13).2]
            · split
              · rw [ih _ _ (hcs 16).1 (hcs 16).2]
              · split
                · rw [ih _ _ (hcs 17).1 (hcs 17).2]
                · cases cs with
                  | nil => rfl
                  | cons d ds =>
                    simp only [List.length_cons] at h₁ h₂
                    rw [latexReadSingle, latexReadSingle]
                    split
                    · rw [ih ds g₂ (by omega) (by omega)]
                    · rw [ih (d :: ds) g₂ (by simp; omega) (by simp; omega)]
        · rw [ih cs g₂ (by omega) (by omega)]

/-- Unfolding equation of `latexReadL` on a cons cell. -/
theorem latexReadL_cons (c : Char) (cs : List Char) :
    latexReadL (c :: cs) =
      (if c == '\\' then
        if leadsWith "textbackslash\x7b\x7d".data cs then '\\' :: latexReadL (cs.drop 15)
        else if leadsWith "textbackslash".data cs then '\\' :: latexReadL (cs.drop 13)
        else if leadsWith "textasciitilde\x7b\x7d".data cs then '~' :: latexReadL (cs.drop 16)
        else if leadsWith "textasciicircum\x7b\x7d".data cs then '^' :: latexReadL (cs.drop 17)
        else latexReadSingle latexReadL cs
      else c :: latexReadL cs) := by
  show latexReadF (cs.length + 1) (c :: cs) = _
  rw [latexReadF]
  have hdrop : ∀ n, (cs.drop n).length ≤ cs.length := by
    intro n
    simp only [List.length_drop]
    omega
  split
  · split
    · rw [latexReadF_congr cs.length _ _ (hdrop 15) (le_refl _)]; rfl
    · split
      · rw [latexReadF_congr cs.length _ _ (hdrop 13) (le_refl _)]; rfl
      · split
        · rw [latexReadF_congr cs.length _ _ (hdrop 16) (le_refl _)]; rfl
        · split
          · rw [latexReadF_congr cs.length _ _ (hdrop 17) (le_refl _)]; rfl
          · cases cs with
            | nil => rfl
            | cons d ds =>
              rw [latexReadSingle, latexReadSingle]
              split
              · rw [latexReadF_congr (d :: ds).length ds ds.length (by simp)
                  (le_refl _)]
                rfl
              · rfl
  · rw [latexReadF_congr cs.length cs _ (le_refl _) (le_refl _)]; rfl

/-- Modelled from the spec: the XML-like reading of ReportLab paragraph
text — the three entities produced by `_escape` denote their literal
characters, everything else denotes itself. -/
def xmlReadF : Nat → List Char → List Char
  | _, [] => []
  | 0, l => l
  | fuel + 1, c :: cs =>
    if c == '&' then
      if leadsWith "amp;".data cs then '&' :: xmlReadF fuel (cs.drop 4)
      else if leadsWith "lt;".data cs then '<' :: xmlReadF fuel (cs.drop 3)
      else if leadsWith "gt;".data cs then '>' :: xmlReadF fuel (cs.drop 3)
      else c :: xmlReadF fuel cs
    else c :: xmlReadF fuel cs

/-- The XML-like reading with the fuel fixed to the input length. -/
def xmlReadL (l : List Char) : List Char :=
  xmlReadF l.length l

theorem xmlReadF_congr :
    ∀ (f₁ : Nat) (l : List Char) (f₂ : Nat), l.length ≤ f₁ → l.length ≤ f₂ →
      xmlReadF f₁ l = xmlReadF f₂ l := by
  intro f₁
  induction f₁ with
  | zero =>
    intro l f₂ h₁ _
    have : l = [] := List.length_eq_zero.mp (Nat.le_zero.mp h₁)
    subst this
    cases f₂ <;> rfl
  | succ g ih =>
    intro l f₂ h₁ h₂
    cases l with
    | nil => cases f₂ <;> rfl
    | cons c cs =>
      cases f₂ with
      | zero => simp at h₂
      | succ g₂ =>
        simp only [List.length_cons, Nat.add_le_add_iff_right] at h₁ h₂
        have hcs : ∀ n, (cs.drop n).length ≤ g ∧ (cs.drop n).length ≤ g₂ := by
          intro n
          simp only [List.length_drop]
          omega
        rw [xmlReadF, xmlReadF]
        split
        · split
          · rw [ih _ _ (hcs 4).1 (hcs 4).2]
          · split
            · rw [ih _ _ (hcs 3).1 (hcs 3).2]
            · split
              · rw [ih _ _ (hcs 3).1 (hcs 3).2]
              · rw [ih cs g₂ (by omega) (by omega)]
        · rw [ih cs g₂ (by omega) (by omega)]

/-- Unfolding equation of `xmlReadL` on a cons cell. -/
theorem xmlReadL_cons (c : Char) (cs : List Char) :
    xmlReadL (c :: cs) =
      (if c == '&' then
        if leadsWith "amp;".data cs then '&' :: xmlReadL (cs.drop 4)
        else if leadsWith "lt;".data cs then '<' :: xmlReadL (cs.drop 3)
        else if leadsWith "gt;".data cs then '>' :: xmlReadL (cs.drop 3)
        else c :: xmlReadL cs
      else c :: xmlReadL cs) := by
  show xmlReadF (cs.length + 1) (c :: cs) = _
  rw [xmlReadF]
  have hdrop : ∀ n, (cs.drop n).length ≤ cs.length := by
    intro n
    simp only [List.length_drop]
    omega
  split
  · split
    · rw [xmlReadF_congr cs.length _ _ (hdrop 4) (le_refl _)]; rfl
    · split
      · rw [xmlReadF_congr cs.length _ _ (hdrop 3) (le_refl _)]; rfl
      · split
        · rw [xmlReadF_congr cs.length _ _ (hdrop 3) (le_refl _)]; rfl
        · rw [xmlReadF_congr cs.length cs _ (le_refl _) (le_refl _)]; rfl
  · rw [xmlReadF_congr cs.length cs _ (le_refl _) (le_refl _)]; rfl

/-- String wrapper for `latexReadL`. -/
def latexRead (s : String) : String := String.mk (latexReadL s.data)

/-- String wrapper for `xmlReadL`. -/
def xmlRead (s : String) : String := String.mk (xmlReadL s.data)

/-! ### Characterizing the escapers character by character

Every pattern of both substitution tables is a single character, so
each `str.replace` pass is a per-character expansion, and the chained
passes compose to a single per-character expansion (the expansion of a
character is whatever the full chain makes of its one-character
string — including the corrupted expansion of the backslash). -/

theorem replaceAux_singleton (p : Char) (rep : List Char) (l : List Char) :
    replaceAux p [] rep l = l.flatMap (fun c => if c = p then rep else [c]) := by
  induction l with
  | nil => rfl
  | cons c cs ih =>
    rw [replaceAux_cons]
    by_cases hc : c = p
    · subst hc
      simp [leadsWith, ih]
    · have hlw : leadsWith [p] (c :: cs) = false := by
        simp [leadsWith]
        exact fun h => absurd h.symm hc
      simp [hlw, ih, hc]

/-- A fold of single-character replacement passes is the per-character
expansion by the fold applied to each singleton. -/
theorem foldl_replace_flatMap (pairs : List (List Char × List Char))
    (hs : ∀ pr ∈ pairs, ∃ p, pr.1 = [p]) (l : List Char) :
    pairs.foldl (fun acc pr => replaceSeq pr.1 pr.2 acc) l =
      l.flatMap (fun c =>
        pairs.foldl (fun acc pr => replaceSeq pr.1 pr.2 acc) [c]) := by
  induction pairs generalizing l with
  | nil => simp
  | cons pr rest ih =>
    obtain ⟨p, hp⟩ := hs pr (List.mem_cons_self _ _)
    have hrest : ∀ q ∈ rest, ∃ c, q.1 = [c] :=
      fun q hq => hs q (List.mem_cons_of_mem _ hq)
    have h1 : replaceSeq pr.1 pr.2 l =
        l.flatMap (fun c => if c = p then pr.2 else [c]) := by
      rw [hp]; exact replaceAux_singleton p pr.2 l
    have h1c : ∀ c, replaceSeq pr.1 pr.2 [c] =
        (if c = p then pr.2 else [c]) := by
      intro c
      rw [hp]
      show replaceAux p [] pr.2 [c] = _
      rw [replaceAux_singleton p pr.2 [c]]
      exact List.flatMap_singleton _ _
    simp only [List.foldl_cons]
    rw [h1, ih hrest, List.flatMap_assoc]
    congr 1
    funext c
    rw [h1c c, ih hrest (if c = p then pr.2 else [c])]

/-- Expansion of a single character by the full LaTeX escaping chain. -/
def latexEscChar (c : Char) : List Char :=
  escLatexL [c]

theorem escLatexL_flatMap (l : List Char) :
    escLatexL l = l.flatMap latexEscChar := by
  have : ∀ pr ∈ latexEscapePairs, ∃ p, pr.1 = [p] := by
    intro pr hpr
    fin_cases hpr <;> exact ⟨_, rfl⟩
  exact foldl_replace_flatMap latexEscapePairs this l

/-- Expansion of a single character by the XML escaping chain. -/
def xmlEscChar (c : Char) : List Char :=
  escXmlL [c]

theorem escXmlL_flatMap (l : List Char) :
    escXmlL l = l.flatMap xmlEscChar := by
  have : ∀ pr ∈ xmlEscapePairs, ∃ p, pr.1 = [p] := by
    intro pr hpr
    fin_cases hpr <;> exact ⟨_, rfl⟩
  exact foldl_replace_flatMap xmlEscapePairs this l

/-! ## Suggestion engine (backend/app/services/analysis.py)

The analysis data model follows `backend/app/models/analysis.py`.  The
OpenAI client and the chat-completion call are boundary collaborators:
`client` is `some ()` when `AnalysisService.__init__` managed to build a
client and `none` otherwise, and the whole oracle round trip (network
call plus `json.loads`) is a single `Except`-valued argument whose
`error` case covers every exception raised inside the `try` block.  A
raised Python exception is an `Except.error` of the embedded service. -/

/-- A suggestion object as found in the oracle's JSON, before
normalization: every field may be absent.  The `id` field (a fresh
UUID default in Pydantic) is not modelled. -/
structure RawSuggestion where
  type : Option String := none
  action : Option String := none
  category : Option String := none
  section_id : Option String := none
  item_id : Option String := none
  bullet_id : Option String := none
  field : Option String := none
  title : Option String := none
  description : Option String := none
  current_text : Option String := none
  suggested_text : Option String := none
  impact : Option String := none
  score_impact : Option Int := none
deriving DecidableEq, Repr

/-- A validated `Suggestion` (models/analysis.py): `type`, `action`,
`title` and `description` are required, the rest carry their Pydantic
defaults. -/
structure Suggestion where
  type : String
  action : String
  category : String := "content"
  section_id : Option String := none
  item_id : Option String := none
  bullet_id : Option String := none
  field : Option String := none
  title : String
  description : String
  current_text : Option String := none
  suggested_text : Option String := none
  impact : String := "Medium"
  score_impact : Int := 0
deriving DecidableEq, Repr

/-- A keyword object as returned by the oracle. -/
structure RawKeyword where
  term : Option String := none
  category : Option String := none
  found : Option Bool := none
  context : Option String := none
  importance : Option String := none
deriving DecidableEq, Repr

/-- A validated `KeywordMatch` (models/analysis.py). -/
structure KeywordMatch where
  term : String
  category : String := "other"
  found : Bool
  context : Option String := none
  importance : String := "Medium"
deriving DecidableEq, Repr

/-- The `AnalysisResult` model (models/analysis.py). -/
structure AnalysisResult where
  score : Int
  match_score : Option Int := none
  summary : String
  suggestions : List Suggestion
  keywords : List KeywordMatch := []
deriving DecidableEq, Repr

/-- Normalization of `s.get("type", "enhancement").lower()` with the
coerce-unknown-to-default step. -/
def normSuggestionType (t : Option String) : String :=
  let s := (t.getD "enhancement").toLower
  if s = "critical" ∨ s = "enhancement" then s else "enhancement"

/-- Normalization of the action field (unknown values become "rewrite"). -/
def normSuggestionAction (a : Option String) : String :=
  let s := (a.getD "rewrite").toLower
  if s = "rewrite" ∨ s = "add" ∨ s = "delete" ∨ s = "remove" ∨ s = "format"
  then s else "rewrite"

/-- Normalization of the category field; an unknown category is inferred
from the (already normalized) action. -/
def normSuggestionCategory (c : Option String) (action : String) : String :=
  let s := (c.getD "content").toLower
  if s = "content" ∨ s = "formatting" then s
  else if action = "format" then "formatting" else "content"

/-- Normalization plus `Suggestion(**s)` validation for one raw
suggestion object: after normalization the enum fields are always
valid, so Pydantic validation fails exactly when a required string
field (`title`, `description`) is missing — such an entry is skipped. -/
def validateSuggestion (r : RawSuggestion) : Option Suggestion :=
  let s_type := normSuggestionType r.type
  let s_action := normSuggestionAction r.action
  let s_category := normSuggestionCategory r.category s_action
  match r.title, r.description with
  | some title, some description =>
      some { type := s_type, action := s_action, category := s_category,
             section_id := r.section_id, item_id := r.item_id,
             bullet_id := r.bullet_id, field := r.field,
             title := title, description := description,
             current_text := r.current_text,
             suggested_text := r.suggested_text,
             impact := r.impact.getD "Medium",
             score_impact := r.score_impact.getD 0 }
  | _, _ => none

/-- The suggestion-processing loop of `analyze_resume`: each entry is
normalized and validated, invalid entries are skipped individually. -/
def processSuggestions : List RawSuggestion → List Suggestion
  | [] => []
  | r :: rs =>
    match validateSuggestion r with
    | some s => s :: processSuggestions rs
    | none => processSuggestions rs

/-- Normalization plus `KeywordMatch(**k)` validation for one raw
keyword object: an unknown category becomes "other"; a keyword missing
a required field (`term`, `found`) is skipped. -/
def validateKeyword (r : RawKeyword) : Option KeywordMatch :=
  let k_cat :=
    let s := (r.category.getD "other").toLower
    if s = "skill" ∨ s = "tool" ∨ s = "certification" ∨ s = "soft_skill" ∨
       s = "other" then s else "other"
  match r.term, r.found with
  | some term, some found =>
      some { term := term, category := k_cat, found := found,
             context := r.context, importance := r.importance.getD "Medium" }
  | _, _ => none

/-- The keyword-processing loop of `analyze_resume`. -/
def processKeywords : List RawKeyword → List KeywordMatch
  | [] => []
  | r :: rs =>
    match validateKeyword r with
    | some k => k :: processKeywords rs
    | none => processKeywords rs

/-- The parsed JSON object of a successful oracle analysis response. -/
structure OracleAnalysis where
  score : Option Int := none
  match_score : Option Int := none
  summary : Option String := none
  suggestions : List RawSuggestion := []
  keywords : List RawKeyword := []
deriving Repr

/-- Python `str(e)[:100]`. -/
def truncAt (n : Nat) (s : String) : String :=
  String.mk (s.data.take n)

/-- Model of `AnalysisService.analyze_resume`.  When no client was
initialized the method raises (`Except.error`) before reaching the
`try` block; any failure of the oracle round trip inside the `try`
(network, malformed JSON) is caught and mapped to the zero-score
fallback result; a successful response is normalized field by field
with the suggestion list capped at 10. -/
def analyzeResume (client : Option Unit) (_resume : Resume)
    (_job_description : String) (oracle : Except String OracleAnalysis) :
    Except String AnalysisResult :=
  match client with
  | none => Except.error "AI Client not initialized"
  | some _ =>
    match oracle with
    | Except.error e =>
        Except.ok { score := 0,
                    summary := "Analysis failed: " ++ truncAt 100 e,
                    suggestions := [] }
    | Except.ok data =>
        Except.ok { score := data.score.getD 50,
                    match_score := data.match_score,
                    summary := data.summary.getD "Analysis complete.",
                    suggestions := (processSuggestions data.suggestions).take 10,
                    keywords := processKeywords data.keywords }

/-- The parsed JSON object of a successful oracle edit response. -/
structure OracleEdit where
  suggested_text : Option String := none
  explanation : Option String := none
  action : Option String := none
deriving Repr

/-- Model of `AnalysisService.custom_edit`: raises when no client was
initialized; any oracle failure inside the `try` returns the no-op
fallback `(current_text, "Error: …")`; a successful response falls back
to `current_text` / "Edit applied." for missing fields. -/
def customEdit (client : Option Unit) (current_text user_prompt : String)
    (_context : Option (String × String))
    (oracle : Except String OracleEdit) :
    Except String (String × String) :=
  match client with
  | none => Except.error "AI Client not initialized"
  | some _ =>
    match oracle with
    | Except.error e =>
        Except.ok (current_text, "Error: " ++ truncAt 100 e)
    | Except.ok data =>
        Except.ok (data.suggested_text.getD current_text,
                   data.explanation.getD "Edit applied.")

/-! ## Extraction pipeline (backend/app/services/parser.py)

The heuristic extractor works line by line.  Python's `uuid.uuid4()` is
modelled by a counter `k` threaded through the parse in the exact order
the Python code constructs model objects, so two runs that construct
the same objects produce identical ids.  The fixed regular expressions
of `ResumeParser` are modelled by dedicated scanners below; `re.search`
is modelled by trying each start position left to right with the
pattern's alternatives in source order and greedy quantifiers. -/

/-- Python default whitespace for `str.strip` / `\s`. -/
def isPySpace (c : Char) : Bool :=
  c == ' ' || c == '\t' || c == '\n' || c == '\r' || c == '\x0b' || c == '\x0c'

/-- Python `str.strip()` on a character list. -/
def pyStripL (l : List Char) : List Char :=
  ((l.dropWhile isPySpace).reverse.dropWhile isPySpace).reverse

/-- Python `str.strip()`. -/
def pyStrip (s : String) : String := String.mk (pyStripL s.data)

/-- Split a character list at every occurrence of a character of `cls`
(the model of `re.split` with a single character class). -/
def splitOnClass (cls : List Char) : List Char → List (List Char)
  | [] => [[]]
  | c :: cs =>
    if c ∈ cls then [] :: splitOnClass cls cs
    else
      match splitOnClass cls cs with
      | [] => [[c]]
      | p :: ps => (c :: p) :: ps

/-- Python `line.split(sep, 1)` at the first occurrence of a single
character. -/
def splitOnce (sep : Char) : List Char → Option (List Char × List Char)
  | [] => none
  | c :: cs =>
    if c == sep then some ([], cs)
    else
      match splitOnce sep cs with
      | some pr => some (c :: pr.1, pr.2)
      | none => none

/-! ### A small backtracking scanner combinator library

A scanner maps an input suffix to the list of possible remainders, in
the priority order of Python's regex engine (greedy quantifiers try the
longest consumption first, alternatives in source order).  The first
remainder that lets the whole pattern succeed is the one the engine
commits to. -/

/-- Candidate remainders after matching a literal (optionally
case-insensitively). -/
def pLit (ci : Bool) (lit : List Char) (l : List Char) : List (List Char) :=
  if ci then
    (if leadsWith (lit.map Char.toLower) ((l.map Char.toLower).take lit.length)
     then [l.drop lit.length] else [])
  else (if leadsWith lit l then [l.drop lit.length] else [])

/-- One character satisfying `p`. -/
def pChar (p : Char → Bool) : List Char → List (List Char)
  | c :: cs => if p c then [cs] else []
  | [] => []

/-- Between `lo` and `hi` characters satisfying `p`, greedy. -/
def pRep (lo hi : Nat) (p : Char → Bool) (l : List Char) : List (List Char) :=
  if min (l.takeWhile p).length hi < lo then []
  else (List.range (min (l.takeWhile p).length hi - lo + 1)).map
    (fun i => l.drop (min (l.takeWhile p).length hi - i))

/-- Optional scanner, greedy (matching branch first). -/
def pOpt (f : List Char → List (List Char)) (l : List Char) : List (List Char) :=
  f l ++ [l]

/-- Sequencing: all remainders of `f` continued by `g`, in priority
order. -/
def pThen (f g : List Char → List (List Char)) (l : List Char) : List (List Char) :=
  (f l).flatMap g

/-- Ordered alternation. -/
def pAlt (f g : List Char → List (List Char)) (l : List Char) : List (List Char) :=
  f l ++ g l

/-- Zero-or-more whitespace, greedy without backtracking (every
embedded use is followed by a token that no whitespace character can
start, so the maximal munch is exact). -/
def pWs (l : List Char) : List (List Char) :=
  [l.dropWhile isPySpace]

/-- Digit test for the ASCII class `[0-9]`. -/
def isDigitC (c : Char) : Bool := '0' ≤ c && c ≤ '9'


/-- At least `lo` characters satisfying `p`, greedy. -/
def pMin (lo : Nat) (p : Char → Bool) (l : List Char) : List (List Char) :=
  if (l.takeWhile p).length < lo then []
  else (List.range ((l.takeWhile p).length - lo + 1)).map
    (fun i => l.drop ((l.takeWhile p).length - i))

theorem length_le_of_mem_pRep {lo hi : Nat} {p : Char → Bool} {l r : List Char}
    (h : r ∈ pRep lo hi p l) : r.length + lo ≤ l.length := by
  unfold pRep at h
  split at h
  · simp at h
  · next hge =>
    obtain ⟨i, hi2, rfl⟩ := List.mem_map.mp h
    rw [List.mem_range] at hi2
    have hrun : (l.takeWhile p).length ≤ l.length := by
      simpa using (List.takeWhile_sublist p).length_le
    simp only [List.length_drop]
    omega

theorem length_le_of_mem_pMin {lo : Nat} {p : Char → Bool} {l r : List Char}
    (h : r ∈ pMin lo p l) : r.length + lo ≤ l.length := by
  unfold pMin at h
  split at h
  · simp at h
  · next hge =>
    obtain ⟨i, hi2, rfl⟩ := List.mem_map.mp h
    rw [List.mem_range] at hi2
    have hrun : (l.takeWhile p).length ≤ l.length := by
      simpa using (List.takeWhile_sublist p).length_le
    simp only [List.length_drop]
    omega

theorem length_le_of_mem_pLit {ci : Bool} {lit l r : List Char}
    (h : r ∈ pLit ci lit l) : r.length + lit.length ≤ l.length := by
  unfold pLit at h
  split at h
  · split at h
    · next hcmp =>
      simp only [List.mem_singleton] at h
      subst h
      have := leadsWith_length hcmp
      simp only [List.length_map, List.length_take] at this
      simp only [List.length_drop]
      omega
    · simp at h
  · split at h
    · next hcmp =>
      simp only [List.mem_singleton] at h
      subst h
      have := leadsWith_length hcmp
      simp only [List.length_drop]
      omega
    · simp at h

theorem length_le_of_mem_pChar {p : Char → Bool} {l r : List Char}
    (h : r ∈ pChar p l) : r.length + 1 ≤ l.length := by
  cases l with
  | nil => simp [pChar] at h
  | cons c cs =>
    simp only [pChar] at h
    split at h
    · simp only [List.mem_singleton] at h
      subst h
      simp
    · simp at h

theorem length_le_of_mem_pWs {l r : List Char}
    (h : r ∈ pWs l) : r.length ≤ l.length := by
  simp only [pWs, List.mem_singleton] at h
  subst h
  simpa using (List.dropWhile_sublist isPySpace).length_le

/-! ### The date regular expressions -/

/-- Month-name alternatives of `DATE_PATTERN`, in source order. -/
def monthNames : List String :=
  ["Jan", "Feb", "Mar", "Apr", "May", "Jun",
   "Jul", "Aug", "Sep", "Oct", "Nov", "Dec"]

/-- The class `[a-z]` under the optional `re.IGNORECASE` flag. -/
def isLowerCls (ci : Bool) (c : Char) : Bool :=
  if ci then 'a' ≤ c.toLower && c.toLower ≤ 'z'
  else 'a' ≤ c && c ≤ 'z'

/-- First alternative of `DATE_PATTERN`:
`(?:Jan|Feb|…|Dec)[a-z]*\.?\s*\d{4}` (the `[a-z]*` munch is maximal:
the character after it can never be a class member). -/
def dateScanA (ci : Bool) (l : List Char) : List (List Char) :=
  (monthNames.flatMap (fun m => pLit ci m.data l)).flatMap
    (fun r1 =>
      (pOpt (pChar (· == '.')) (r1.dropWhile (isLowerCls ci))).flatMap
        (fun r3 => pThen pWs (pRep 4 4 isDigitC) r3))

/-- Second alternative of `DATE_PATTERN`: `\d{1,2}/\d{4}`. -/
def dateScanB (l : List Char) : List (List Char) :=
  pThen (pRep 1 2 isDigitC) (pThen (pChar (· == '/')) (pRep 4 4 isDigitC)) l

/-- `DATE_PATTERN` with its alternatives in source order (the third
alternative is a bare `\d{4}`). -/
def dateScan (ci : Bool) (l : List Char) : List (List Char) :=
  dateScanA ci l ++ dateScanB l ++ pRep 4 4 isDigitC l

theorem length_lt_of_mem_dateScan {ci : Bool} {l r : List Char}
    (h : r ∈ dateScan ci l) : r.length < l.length := by
  rcases List.mem_append.mp h with h | h
  · rcases List.mem_append.mp h with h | h
    · simp only [dateScanA, List.mem_flatMap] at h
      obtain ⟨r1, hr1, r3, hr3, hrest⟩ := h
      obtain ⟨m, hm, hr1'⟩ := hr1
      have h1 : r1.length + 3 ≤ l.length := by
        have := length_le_of_mem_pLit hr1'
        have hm3 : m.data.length = 3 := by
          fin_cases hm <;> rfl
        omega
      have h2 : (r1.dropWhile (isLowerCls ci)).length ≤ r1.length := by
        simpa using (List.dropWhile_sublist (isLowerCls ci)).length_le
      have h3 : r3.length ≤ (r1.dropWhile (isLowerCls ci)).length := by
        rcases List.mem_append.mp hr3 with h' | h'
        · have := length_le_of_mem_pChar h'
          omega
        · simp only [List.mem_singleton] at h'
          subst h'
          exact le_refl _
      have h4 : r.length + 4 ≤ r3.length := by
        simp only [pThen, List.mem_flatMap] at hrest
        obtain ⟨m2, hm2, hr⟩ := hrest
        have := length_le_of_mem_pWs hm2
        have := length_le_of_mem_pRep hr
        omega
      omega
    · have : r.length + 6 ≤ l.length := by
        simp only [dateScanB, pThen, List.mem_flatMap] at h
        obtain ⟨m1, hm1, m2, hm2, hr⟩ := h
        have := length_le_of_mem_pRep hm1
        have := length_le_of_mem_pChar hm2
        have := length_le_of_mem_pRep hr
        omega
      omega
  · have := length_le_of_mem_pRep h
    omega

/-- The range separator class `[-–—to]+` under the optional
`re.IGNORECASE` flag. -/
def rangeSepChar (ci : Bool) (c : Char) : Bool :=
  (if ci then c.toLower else c) == '-' ||
  (if ci then c.toLower else c) == '–' ||
  (if ci then c.toLower else c) == '—' ||
  (if ci then c.toLower else c) == 't' ||
  (if ci then c.toLower else c) == 'o'

/-- Attempt `DATE_RANGE_PATTERN` anchored at the head of `l`, returning
(group 1, group 2, remainder after the match).  Alternatives are tried
in source order and quantifiers greedily, with backtracking across the
parts. -/
def rangeScanAt (ci : Bool) (l : List Char) :
    Option (List Char × List Char × List Char) :=
  (dateScan ci l).findSome? (fun r1 =>
    ((pThen pWs (pThen (pMin 1 (rangeSepChar ci)) pWs)) r1).findSome? (fun r2 =>
      match dateScan ci r2 ++ pLit ci "Present".data r2 ++
            pLit ci "Current".data r2 with
      | r3 :: _ => some (l.take (l.length - r1.length),
                         r2.take (r2.length - r3.length), r3)
      | [] => none))

theorem length_lt_of_rangeScanAt {ci : Bool} {l : List Char}
    {t : List Char × List Char × List Char}
    (h : rangeScanAt ci l = some t) : t.2.2.length < l.length := by
  unfold rangeScanAt at h
  obtain ⟨r1, hr1, h2⟩ := List.exists_of_findSome?_eq_some h
  obtain ⟨r2, hr2, h3⟩ := List.exists_of_findSome?_eq_some h2
  have hl1 : r1.length < l.length := length_lt_of_mem_dateScan hr1
  have hl2 : r2.length < r1.length := by
    simp only [pThen, List.mem_flatMap] at hr2
    obtain ⟨m1, hm1, m2, hm2, hr⟩ := hr2
    have := length_le_of_mem_pWs hm1
    have := length_le_of_mem_pMin hm2
    have := length_le_of_mem_pWs hr
    omega
  rcases hcons : dateScan ci r2 ++ pLit ci "Present".data r2 ++
      pLit ci "Current".data r2 with _ | ⟨r3, tl⟩
  · rw [hcons] at h3
    cases h3
  · rw [hcons] at h3
    cases h3
    have hmem : r3 ∈ dateScan ci r2 ++ pLit ci "Present".data r2 ++
        pLit ci "Current".data r2 := by
      rw [hcons]
      exact List.mem_cons_self _ _
    have hl3 : r3.length < r2.length := by
      rcases List.mem_append.mp hmem with h' | h'
      · rcases List.mem_append.mp h' with h'' | h''
        · exact length_lt_of_mem_dateScan h''
        · have := length_le_of_mem_pLit h''
          simp only [String.length_data] at this
          simp at this
          omega
      · have := length_le_of_mem_pLit h'
        simp at this
        omega
    simp only []
    omega

/-- Generic leftmost search: try the scanner at every start position,
left to right; on success return (matched text, remainder). -/
def searchScan (f : List Char → List (List Char)) : List Char → Option (List Char × List Char)
  | [] =>
    match f [] with
    | r :: _ => some ([], r)
    | [] => none
  | c :: cs =>
    match f (c :: cs) with
    | r :: _ => some ((c :: cs).take ((c :: cs).length - r.length), r)
    | [] => searchScan f cs

/-- Leftmost `DATE_PATTERN` search; returns the matched text (group 0). -/
def dateSearchL (ci : Bool) (l : List Char) : Option (List Char) :=
  (searchScan (dateScan ci) l).map (·.1)

/-- Leftmost `DATE_RANGE_PATTERN` search; returns groups 1 and 2. -/
def searchRange (ci : Bool) : List Char → Option (List Char × List Char)
  | [] => none
  | c :: cs =>
    match rangeScanAt ci (c :: cs) with
    | some t => some (t.1, t.2.1)
    | none => searchRange ci cs

/-- Model of `re.sub(DATE_RANGE_PATTERN, '', line)`: remove every
non-overlapping match, scanning left to right. -/
def removeRanges (ci : Bool) : List Char → List Char
  | [] => []
  | c :: cs =>
    match h : rangeScanAt ci (c :: cs) with
    | some t => removeRanges ci t.2.2
    | none => c :: removeRanges ci cs
termination_by l => l.length
decreasing_by
  · exact length_lt_of_rangeScanAt h
  · simp

/-! ### Contact-information regular expressions -/

/-- ASCII letter. -/
def isAlphaC (c : Char) : Bool :=
  ('a' ≤ c && c ≤ 'z') || ('A' ≤ c && c ≤ 'Z')

/-- ASCII uppercase / lowercase letter. -/
def isUpperC (c : Char) : Bool := 'A' ≤ c && c ≤ 'Z'

/-- ASCII lowercase letter. -/
def isLowerC (c : Char) : Bool := 'a' ≤ c && c ≤ 'z'

/-- Class `[a-zA-Z0-9._%+-]` of the email local part. -/
def isEmailLocalC (c : Char) : Bool :=
  isAlphaC c || isDigitC c || c == '.' || c == '_' || c == '%' || c == '+' || c == '-'

/-- Class `[a-zA-Z0-9.-]` of the email domain. -/
def isEmailDomC (c : Char) : Bool :=
  isAlphaC c || isDigitC c || c == '.' || c == '-'

/-- `EMAIL_PATTERN`: `[a-zA-Z0-9._%+-]+@[a-zA-Z0-9.-]+\.[a-zA-Z]{2,}`. -/
def emailScan (l : List Char) : List (List Char) :=
  pThen (pMin 1 isEmailLocalC)
    (pThen (pChar (· == '@'))
      (pThen (pMin 1 isEmailDomC)
        (pThen (pChar (· == '.')) (pMin 2 isAlphaC)))) l

/-- Leftmost `EMAIL_PATTERN` search. -/
def emailSearchL (l : List Char) : Option (List Char) :=
  (searchScan emailScan l).map (·.1)

/-- Separator class `[-\s\.]` of `PHONE_PATTERN`. -/
def isPhoneSepC (c : Char) : Bool :=
  c == '-' || isPySpace c || c == '.'

/-- `PHONE_PATTERN`:
`[\+]?[(]?[0-9]{1,3}[)]?[-\s\.]?[(]?[0-9]{1,4}[)]?[-\s\.]?[0-9]{1,4}[-\s\.]?[0-9]{1,9}`. -/
def phoneScan (l : List Char) : List (List Char) :=
  pThen (pOpt (pChar (· == '+')))
    (pThen (pOpt (pChar (· == '(')))
      (pThen (pRep 1 3 isDigitC)
        (pThen (pOpt (pChar (· == ')')))
          (pThen (pOpt (pChar isPhoneSepC))
            (pThen (pOpt (pChar (· == '(')))
              (pThen (pRep 1 4 isDigitC)
                (pThen (pOpt (pChar (· == ')')))
                  (pThen (pOpt (pChar isPhoneSepC))
                    (pThen (pRep 1 4 isDigitC)
                      (pThen (pOpt (pChar isPhoneSepC))
                        (pRep 1 9 isDigitC))))))))))) l

/-- Leftmost `PHONE_PATTERN` search. -/
def phoneSearchL (l : List Char) : Option (List Char) :=
  (searchScan phoneScan l).map (·.1)

/-- Class `[a-zA-Z0-9_-]` of the LinkedIn / GitHub handle group. -/
def isHandleC (c : Char) : Bool :=
  isAlphaC c || isDigitC c || c == '_' || c == '-'

/-- Second alternative of `LINKEDIN_PATTERN`: `linkedin:?\s*` followed by
the handle group (case-insensitive prefix, handle in original case). -/
def linkedinAlt2 (l : List Char) : Option (List Char) :=
  if leadsWith "linkedin".data (l.map Char.toLower) then
    (match l.drop 8 with
     | ':' :: r =>
       (match (r.dropWhile isPySpace).takeWhile isHandleC with
        | [] => none
        | h => some h)
     | rest =>
       (match (rest.dropWhile isPySpace).takeWhile isHandleC with
        | [] => none
        | h => some h))
  else none

/-- `LINKEDIN_PATTERN` anchored at a position, alternatives in source
order: `linkedin\.com/in/` first, then `linkedin:?\s*`. -/
def linkedinAtPos (l : List Char) : Option (List Char) :=
  if leadsWith "linkedin.com/in/".data (l.map Char.toLower) then
    (match (l.drop 16).takeWhile isHandleC with
     | [] => linkedinAlt2 l
     | h => some h)
  else linkedinAlt2 l

/-- Leftmost case-insensitive `LINKEDIN_PATTERN` search; returns the
handle (group 1). -/
def linkedinSearchL : List Char → Option (List Char)
  | [] => none
  | c :: cs =>
    match linkedinAtPos (c :: cs) with
    | some h => some h
    | none => linkedinSearchL cs

/-- Second alternative of `GITHUB_PATTERN`: `github:?\s*` plus handle. -/
def githubAlt2 (l : List Char) : Option (List Char) :=
  if leadsWith "github".data (l.map Char.toLower) then
    (match l.drop 6 with
     | ':' :: r =>
       (match (r.dropWhile isPySpace).takeWhile isHandleC with
        | [] => none
        | h => some h)
     | rest =>
       (match (rest.dropWhile isPySpace).takeWhile isHandleC with
        | [] => none
        | h => some h))
  else none

/-- `GITHUB_PATTERN` anchored at a position: `github\.com/` first, then
`github:?\s*`. -/
def githubAtPos (l : List Char) : Option (List Char) :=
  if leadsWith "github.com/".data (l.map Char.toLower) then
    (match (l.drop 11).takeWhile isHandleC with
     | [] => githubAlt2 l
     | h => some h)
  else githubAlt2 l

/-- Leftmost case-insensitive `GITHUB_PATTERN` search. -/
def githubSearchL : List Char → Option (List Char)
  | [] => none
  | c :: cs =>
    match githubAtPos (c :: cs) with
    | some h => some h
    | none => githubSearchL cs

/-- Greedy-with-backtracking `(?:\s+[A-Z][a-z]+)*`, fuelled by the
input length (each iteration consumes at least one character). -/
def wordsStar : Nat → List Char → List (List Char)
  | 0, l => [l]
  | fuel + 1, l =>
    ((pThen (pMin 1 isPySpace) (pThen (pChar isUpperC) (pMin 1 isLowerC))) l).flatMap
      (wordsStar fuel) ++ [l]

/-- First location pattern: `([A-Z][a-z]+(?:\s+[A-Z][a-z]+)*,\s*[A-Z]{2})`. -/
def locScan1 (l : List Char) : List (List Char) :=
  ((pThen (pChar isUpperC) (pMin 1 isLowerC)) l).flatMap (fun r =>
    (wordsStar r.length r).flatMap (fun r2 =>
      pThen (pChar (· == ',')) (pThen pWs (pRep 2 2 isUpperC)) r2))

/-- Second location pattern:
`([A-Z][a-z]+(?:\s+[A-Z][a-z]+)*,\s*[A-Z][a-z]+)`. -/
def locScan2 (l : List Char) : List (List Char) :=
  ((pThen (pChar isUpperC) (pMin 1 isLowerC)) l).flatMap (fun r =>
    (wordsStar r.length r).flatMap (fun r2 =>
      pThen (pChar (· == ',')) (pThen pWs (pThen (pChar isUpperC) (pMin 1 isLowerC))) r2))

/-- Location extraction of `_extract_metadata`: first pattern over the
first ten lines, then the second pattern. -/
def locationFromLines (lines : List String) : Option String :=
  match (lines.take 10).findSome? (fun line => (searchScan locScan1 line.data).map (·.1)) with
  | some m => some (String.mk m)
  | none =>
    ((lines.take 10).findSome? (fun line => (searchScan locScan2 line.data).map (·.1))).map String.mk

/-- Python `re.search(r"^\d", line)`. -/
def startsDigit (s : String) : Bool :=
  match s.data with
  | c :: _ => isDigitC c
  | [] => false

/-- The name-selection loop of `_extract_metadata` over the first five
lines: skip lines containing an email-ish `@` or a phone match; the
first remaining line longer than two characters not starting with a
digit wins; default "Unknown". -/
def extractNameGo : List String → String
  | [] => "Unknown"
  | line :: rest =>
    if containsSeg ['@'] line.data || (phoneSearchL line.data).isSome then
      extractNameGo rest
    else if line.length > 2 && !startsDigit line then line
    else extractNameGo rest

/-- Model of `_extract_metadata`. -/
def extractMetadata (lines : List String) (full_text : String) : ResumeMetadata :=
  { name := extractNameGo (lines.take 5),
    email := (emailSearchL full_text.data).map String.mk,
    phone := (phoneSearchL full_text.data).map String.mk,
    linkedin := (linkedinSearchL full_text.data).map
      (fun h => "linkedin.com/in/" ++ String.mk h),
    github := (githubSearchL full_text.data).map
      (fun h => "github.com/" ++ String.mk h),
    location := locationFromLines lines,
    website := none }

/-! ### Section segmentation and per-kind buffer parsing -/

/-- Deterministic stand-in for `str(uuid.uuid4())`. -/
def mkId (n : Nat) : String := "uuid-" ++ toString n

/-- One token of a section-header pattern: a literal, or `\s*`. -/
inductive HPat where
  | lit (s : String)
  | ws
deriving Repr

/-- Anchored match of a header-pattern alternative against a character
list (already lowercased): literals match exactly, `\s*` consumes any
whitespace run (each following literal starts with a non-whitespace
character, so the maximal munch is exact). -/
def matchHPats : List HPat → List Char → Bool
  | [], _ => true
  | HPat.lit s :: rest, cs => leadsWith s.data cs && matchHPats rest (cs.drop s.data.length)
  | HPat.ws :: rest, cs => matchHPats rest (cs.dropWhile isPySpace)

/-- `SECTION_PATTERNS`, in dictionary order, each pattern as its list of
alternatives in source order. -/
def sectionPatterns : List (SectionType × List (List HPat)) :=
  [(SectionType.summary,
    [[HPat.lit "summary"], [HPat.lit "profile"], [HPat.lit "objective"],
     [HPat.lit "about", HPat.ws, HPat.lit "me"],
     [HPat.lit "professional", HPat.ws, HPat.lit "summary"]]),
   (SectionType.experience,
    [[HPat.lit "experience"], [HPat.lit "work", HPat.ws, HPat.lit "experience"],
     [HPat.lit "employment"],
     [HPat.lit "professional", HPat.ws, HPat.lit "experience"],
     [HPat.lit "work", HPat.ws, HPat.lit "history"]]),
   (SectionType.education,
    [[HPat.lit "education"], [HPat.lit "academic"], [HPat.lit "qualifications"],
     [HPat.lit "schooling"]]),
   (SectionType.skills,
    [[HPat.lit "skills"], [HPat.lit "technical", HPat.ws, HPat.lit "skills"],
     [HPat.lit "core", HPat.ws, HPat.lit "competencies"],
     [HPat.lit "technologies"], [HPat.lit "expertise"]]),
   (SectionType.projects,
    [[HPat.lit "projects"], [HPat.lit "personal", HPat.ws, HPat.lit "projects"],
     [HPat.lit "key", HPat.ws, HPat.lit "projects"]]),
   (SectionType.certifications,
    [[HPat.lit "certifications"], [HPat.lit "certificates"],
     [HPat.lit "licenses"], [HPat.lit "credentials"]])]

/-- The header test of `_extract_sections`: `re.match(pattern,
line.strip())` for each case-insensitive pattern, in dictionary order. -/
def matchSectionHeader (line : String) : Option SectionType :=
  sectionPatterns.findSome? (fun pr =>
    if pr.2.any (fun alt => matchHPats alt ((pyStripL line.data).map Char.toLower))
    then some pr.1 else none)

/-- Bullet-glyph test of `_parse_experience_section`:
`line.startswith(('•', '-', '–', '▪', '*', '○'))`. -/
def isBulletStart : List Char → Bool
  | c :: _ => c == '•' || c == '-' || c == '–' || c == '▪' || c == '*' || c == '○'
  | [] => false

/-- Continuation of `^\d+\.`: digits already begun, look for the dot. -/
def numDotCont : List Char → Bool
  | '.' :: _ => true
  | c :: rest => isDigitC c && numDotCont rest
  | [] => false

/-- `re.match(r'^\d+\.', line)`. -/
def startsNumDot : List Char → Bool
  | c :: rest => isDigitC c && numDotCont rest
  | [] => false

/-- Scan a digit run begun inside `\d+\.` for its terminating dot. -/
def dropDigitsDotCont : List Char → Option (List Char)
  | '.' :: r => some r
  | c :: cs => if isDigitC c then dropDigitsDotCont cs else none
  | [] => none

/-- Match `\d+\.` at the head of the list, returning the remainder. -/
def dropDigitsDot : List Char → Option (List Char)
  | c :: cs => if isDigitC c then dropDigitsDotCont cs else none
  | [] => none

theorem length_lt_of_dropDigitsDotCont {l r : List Char}
    (h : dropDigitsDotCont l = some r) : r.length < l.length := by
  induction l with
  | nil => simp [dropDigitsDotCont] at h
  | cons c cs ih =>
    by_cases hc : c = '.'
    · subst hc
      rw [dropDigitsDotCont] at h
      cases h
      simp
    · rw [dropDigitsDotCont.eq_def] at h
      have : (match c :: cs with
          | '.' :: r => some r
          | c :: cs => if isDigitC c then dropDigitsDotCont cs else none
          | [] => none) = if isDigitC c then dropDigitsDotCont cs else none := by
        cases c with
        | _ v h' =>
          split
          · next heq => rw [List.cons.injEq] at heq; exact absurd heq.1 hc
          · next heq => rw [List.cons.injEq] at heq; cases heq.1; cases heq.2; rfl
          · next heq => cases heq
      rw [this] at h
      split at h
      · exact Nat.lt_trans (ih h) (by simp)
      · cases h

/-- Model of the unanchored alternative `\d+\.\s*` of the bullet-marker
substitution: remove every occurrence, scanning left to right. -/
def subNumDot : List Char → List Char
  | [] => []
  | c :: cs =>
    if isDigitC c then
      match h : dropDigitsDotCont cs with
      | some r => subNumDot (r.dropWhile isPySpace)
      | none => c :: subNumDot cs
    else c :: subNumDot cs
termination_by l => l.length
decreasing_by
  · have h1 := length_lt_of_dropDigitsDotCont h
    have h2 : (r.dropWhile isPySpace).length ≤ r.length := by
      simpa using (List.dropWhile_sublist isPySpace).length_le
    simp only [List.length_cons]
    omega
  · simp
  · simp

/-- Model of `re.sub(r'^[•\-–▪*○]\s*|\d+\.\s*', '', line)`: the anchored
glyph alternative can only fire at the start; the numbered alternative
is unanchored and fires anywhere. -/
def stripBulletText (l : List Char) : List Char :=
  subNumDot (if isBulletStart l then (l.drop 1).dropWhile isPySpace else l)

/-- The fifteen job-title keywords of `_looks_like_job_title`. -/
def jobKeywords : List String :=
  ["engineer", "developer", "manager", "director", "analyst",
   "designer", "lead", "senior", "junior", "intern", "consultant",
   "specialist", "coordinator", "associate", "executive"]

/-- Model of `_looks_like_job_title`: case-insensitive substring test. -/
def looksLikeJobTitle (line : List Char) : Bool :=
  jobKeywords.any (fun kw => containsSeg kw.data (line.map Char.toLower))

/-- The separator `\s+at\s+|\s+@\s+|\s*[|,]\s*` of
`_create_experience_entry`, anchored at a position; returns the
remainder after the separator. -/
def roleSepAt (l : List Char) : Option (List Char) :=
  match (pThen (pMin 1 isPySpace)
          (pThen (pLit false "at".data) (pMin 1 isPySpace))) l with
  | r :: _ => some r
  | [] =>
    match (pThen (pMin 1 isPySpace)
            (pThen (pLit false "@".data) (pMin 1 isPySpace))) l with
    | r :: _ => some r
    | [] =>
      match l.dropWhile isPySpace with
      | c :: r => if c == '|' || c == ',' then some (r.dropWhile isPySpace) else none
      | [] => none

/-- Leftmost separator occurrence (`re.split(..., maxsplit=1)`),
returning the text before and the text after. -/
def findRoleSplitGo (acc : List Char) : List Char → Option (List Char × List Char)
  | [] => none
  | c :: cs =>
    match roleSepAt (c :: cs) with
    | some rest => some (acc.reverse, rest)
    | none => findRoleSplitGo (c :: acc) cs

/-- Role/company extraction of `_create_experience_entry` once dates are
removed. -/
def mkExpFromLine (line : List Char) (start_date : String)
    (end_date : Option String) : ExperienceItem :=
  match findRoleSplitGo [] line with
  | some (before, after) =>
      { company := pyStrip (String.mk after), role := pyStrip (String.mk before),
        start_date := start_date, end_date := end_date, bullets := [] }
  | none =>
      { company := "", role := String.mk line,
        start_date := start_date, end_date := end_date, bullets := [] }

/-- Model of `_create_experience_entry`: a "present"/"current" end group
becomes an absent end date, matched date ranges are removed before the
role/company split. -/
def createExperienceEntry (line : List Char)
    (dm : Option (List Char × List Char)) : ExperienceItem :=
  match dm with
  | some (g1, g2) =>
      let endLower := (String.mk g2).toLower
      mkExpFromLine (pyStripL (removeRanges true line)) (String.mk g1)
        (if endLower = "present" ∨ endLower = "current" then none
         else some (String.mk g2))
  | none => mkExpFromLine line "" none

/-- Loop state of `_parse_experience_section`. -/
structure ExpState where
  items : List SectionItem
  entry : Option ExperienceItem
  bullets : List Bullet
  item_order : Int
  k : Nat
deriving Repr

/-- One line of the `_parse_experience_section` loop. -/
def expStep (st : ExpState) (rawLine : String) : ExpState :=
  let line := pyStripL rawLine.data
  if line = [] then st
  else if isBulletStart line || startsNumDot line then
    let bullet_text := stripBulletText line
    if st.entry.isSome ∧ bullet_text ≠ [] then
      { st with
        bullets := st.bullets ++
          [{ id := mkId st.k, text := String.mk bullet_text,
             order := (st.bullets.length : Int) }],
        k := st.k + 1 }
    else st
  else
    let dm := searchRange true line
    if dm.isSome || looksLikeJobTitle line then
      let st' : ExpState :=
        match st.entry with
        | some e =>
          { st with
            items := st.items ++
              [{ id := mkId st.k, order := st.item_order,
                 content := ItemContent.experience { e with bullets := st.bullets } }],
            item_order := st.item_order + 1, bullets := [], k := st.k + 1,
            entry := none }
        | none => st
      { st' with entry := some (createExperienceEntry line dm) }
    else st

/-- Closing step of `_parse_experience_section` for the last entry. -/
def expFinal (st : ExpState) : List SectionItem × Nat :=
  match st.entry with
  | some e =>
    (st.items ++
      [{ id := mkId st.k, order := st.item_order,
         content := ItemContent.experience { e with bullets := st.bullets } }],
     st.k + 1)
  | none => (st.items, st.k)

/-- Model of `_parse_experience_section`. -/
def parseExperienceSection (lines : List String) (k : Nat) :
    List SectionItem × Nat :=
  expFinal (lines.foldl expStep
    { items := [], entry := none, bullets := [], item_order := 0, k := k })

/-- Model of `_parse_education_section`: the whole buffer is one entry,
institution and degree positional, first date match is the end date. -/
def parseEducationSection (lines : List String) (k : Nat) :
    List SectionItem × Nat :=
  match (lines.map pyStrip).filter (· ≠ "") with
  | [] => ([], k)
  | first :: rest =>
    ([{ id := mkId k, order := 0,
        content := ItemContent.education
          { institution := first,
            degree := match rest with | d :: _ => d | [] => "Degree",
            end_date :=
              match dateSearchL false
                  (String.intercalate " " (first :: rest)).data with
                | some m => String.mk m
                | none => "Unknown",
            bullets := [] } }], k + 1)

/-- Category-line split of `_parse_skills_section`: `re.split(r'[,;|]')`
with stripping and blank removal. -/
def skillSplitCat (l : List Char) : List String :=
  ((splitOnClass [',', ';', '|'] l).map (fun s => pyStrip (String.mk s))).filter (· ≠ "")

/-- Plain-line split of `_parse_skills_section`: `re.split(r'[,;|•\-]')`. -/
def skillSplitPlain (l : List Char) : List String :=
  ((splitOnClass [',', ';', '|', '•', '-'] l).map (fun s => pyStrip (String.mk s))).filter (· ≠ "")

/-- Loop state of `_parse_skills_section`. -/
structure SkState where
  categories : List SkillCategory
  all_skills : List String
deriving Repr

/-- One line of the `_parse_skills_section` loop. -/
def skStep (st : SkState) (rawLine : String) : SkState :=
  let line := pyStripL rawLine.data
  if line = [] then st
  else
    match splitOnce ':' line with
    | some (before, after) =>
      let skills := skillSplitCat (pyStrip (String.mk after)).data
      if skills ≠ [] then
        { st with categories := st.categories ++
            [{ name := pyStrip (String.mk before), skills := skills }] }
      else st
    | none => { st with all_skills := st.all_skills ++ skillSplitPlain line }

/-- Model of `_parse_skills_section`. -/
def parseSkillsSection (lines : List String) (k : Nat) :
    List SectionItem × Nat :=
  let st := lines.foldl skStep { categories := [], all_skills := [] }
  let categories :=
    if st.categories = [] ∧ st.all_skills ≠ [] then
      [{ name := "Technical Skills", skills := st.all_skills : SkillCategory }]
    else st.categories
  if categories ≠ [] then
    ([{ id := mkId k, order := 0,
        content := ItemContent.skills { categories := categories } }], k + 1)
  else ([], k)

/-- Model of `_parse_summary_section`. -/
def parseSummarySection (lines : List String) (k : Nat) :
    List SectionItem × Nat :=
  let text := String.intercalate " " ((lines.map pyStrip).filter (· ≠ ""))
  if text ≠ "" then
    ([{ id := mkId k, order := 0,
        content := ItemContent.summary { text := text } }], k + 1)
  else ([], k)

/-- Bullet-glyph test of `_parse_projects_section` (no `○`, no numbered
markers). -/
def isProjBulletStart : List Char → Bool
  | c :: _ => c == '•' || c == '-' || c == '–' || c == '▪' || c == '*'
  | [] => false

/-- Model of `re.sub(r'^[•\-–▪*]\s*', '', line)`. -/
def stripProjBullet (l : List Char) : List Char :=
  if isProjBulletStart l then (l.drop 1).dropWhile isPySpace else l

/-- Loop state of `_parse_projects_section`. -/
structure ProjState where
  items : List SectionItem
  project : Option ProjectItem
  bullets : List Bullet
  item_order : Int
  k : Nat
deriving Repr

/-- One line of the `_parse_projects_section` loop. -/
def projStep (st : ProjState) (rawLine : String) : ProjState :=
  let line := pyStripL rawLine.data
  if line = [] then st
  else if isProjBulletStart line then
    let bullet_text := stripProjBullet line
    if st.project.isSome ∧ bullet_text ≠ [] then
      { st with
        bullets := st.bullets ++
          [{ id := mkId st.k, text := String.mk bullet_text,
             order := (st.bullets.length : Int) }],
        k := st.k + 1 }
    else st
  else
    let st' : ProjState :=
      match st.project with
      | some p =>
        { st with
          items := st.items ++
            [{ id := mkId st.k, order := st.item_order,
               content := ItemContent.project { p with bullets := st.bullets } }],
          item_order := st.item_order + 1, bullets := [], k := st.k + 1,
          project := none }
      | none => st
    { st' with project := some { name := String.mk line, bullets := [] } }

/-- Closing step of `_parse_projects_section`. -/
def projFinal (st : ProjState) : List SectionItem × Nat :=
  match st.project with
  | some p =>
    (st.items ++
      [{ id := mkId st.k, order := st.item_order,
         content := ItemContent.project { p with bullets := st.bullets } }],
     st.k + 1)
  | none => (st.items, st.k)

/-- Model of `_parse_projects_section`. -/
def parseProjectsSection (lines : List String) (k : Nat) :
    List SectionItem × Nat :=
  projFinal (lines.foldl projStep
    { items := [], project := none, bullets := [], item_order := 0, k := k })

/-- Bullet accumulation of `_parse_generic_section`: every non-blank
line becomes one bullet carrying its `enumerate` index as order. -/
def genericBullets : List String → Nat → Nat → List Bullet × Nat
  | [], _, k => ([], k)
  | line :: rest, i, k =>
    if pyStrip line ≠ "" then
      match genericBullets rest (i + 1) (k + 1) with
      | (bs, k') =>
        ({ id := mkId k, text := pyStrip line, order := (i : Int) } :: bs, k')
    else genericBullets rest (i + 1) k

/-- Model of `_parse_generic_section`. -/
def parseGenericSection (lines : List String) (k : Nat) :
    List SectionItem × Nat :=
  match genericBullets lines 0 k with
  | (bullets, k') =>
    if bullets ≠ [] then
      ([{ id := mkId k', order := 0,
          content := ItemContent.custom { bullets := bullets } }], k' + 1)
    else ([], k')

/-- Model of `_parse_section`: per-kind dispatch, then the zero-item
discard. -/
def parseSection (stype : SectionType) (title : String) (lines : List String)
    (order : Int) (k : Nat) : Option ResumeSection × Nat :=
  match
    (match stype with
     | SectionType.experience => parseExperienceSection lines k
     | SectionType.education => parseEducationSection lines k
     | SectionType.skills => parseSkillsSection lines k
     | SectionType.summary => parseSummarySection lines k
     | SectionType.projects => parseProjectsSection lines k
     | _ => parseGenericSection lines k) with
  | (items, k') =>
    if items = [] then (none, k')
    else
      (some { id := mkId k', type := stype, title := title, order := order,
              items := items }, k' + 1)

/-- Loop state of `_extract_sections`. -/
structure SecState where
  sections : List ResumeSection
  currType : Option SectionType
  currTitle : String
  currLines : List String
  order : Int
  k : Nat
deriving Repr

/-- Closing of the open section in `_extract_sections`: parsed only if
it accumulated at least one content line, appended (bumping the order
counter) only if parsing produced a section. -/
def closeCurr (st : SecState) : SecState :=
  match st.currType with
  | some t =>
    if st.currLines ≠ [] then
      match parseSection t st.currTitle st.currLines st.order st.k with
      | (some sec, k') =>
        { st with sections := st.sections ++ [sec], order := st.order + 1, k := k' }
      | (none, k') => { st with k := k' }
    else st
  | none => st

/-- One line of the `_extract_sections` walk. -/
def secStep (st : SecState) (line : String) : SecState :=
  match matchSectionHeader line with
  | some t =>
    let st' := closeCurr st
    { st' with currType := some t, currTitle := pyStrip line, currLines := [] }
  | none =>
    match st.currType with
    | some _ => { st with currLines := st.currLines ++ [line] }
    | none => st

/-- Model of `_extract_sections` (its `full_text` parameter is unused in
the source as well). -/
def extractSections (lines : List String) (_full_text : String) (k : Nat) :
    List ResumeSection × Nat :=
  match closeCurr (lines.foldl secStep
      { sections := [], currType := none, currTitle := "", currLines := [],
        order := 0, k := k }) with
  | st => (st.sections, st.k)

/-- Model of `_parse_text`. -/
def parseText (lines : List String) (full_text : String)
    (warnings : List String) (k : Nat) : (Resume × List String) × Nat :=
  match extractSections lines full_text k with
  | (sections, k') =>
    (({ id := mkId k', metadata := extractMetadata lines full_text,
        sections := sections, version := 1 },
      if sections = [] then
        warnings ++ ["Could not identify any sections. Manual editing may be required."]
      else warnings), k' + 1)

/-- Model of `_create_empty_resume`. -/
def createEmptyResume (k : Nat) : Resume :=
  { id := mkId k, metadata := { name := "Unknown" }, sections := [], version := 1 }

/-- Model of `ResumeParser.parse_pdf`.  The PyMuPDF block extraction is
a boundary collaborator: its outcome is the list of block texts in
sorted reading order (each already `strip()`ed by the extraction loop),
or an exception message.  Only the extraction is inside the `try`;
`_parse_text` runs after it and is a total function. -/
def parsePdf (extraction : Except String (List String)) (k : Nat) :
    (Resume × List String) × Nat :=
  match extraction with
  | Except.error e => ((createEmptyResume k, ["PDF parsing error: " ++ e]), k + 1)
  | Except.ok blockTexts =>
    parseText (blockTexts.filter (· ≠ "")) (String.intercalate "\n" blockTexts) [] k

/-- Model of `ResumeParser.parse_docx`: the python-docx paragraph
extraction is the collaborator; its outcome is the paragraph texts. -/
def parseDocx (extraction : Except String (List String)) (k : Nat) :
    (Resume × List String) × Nat :=
  match extraction with
  | Except.error e => ((createEmptyResume k, ["DOCX parsing error: " ++ e]), k + 1)
  | Except.ok paragraphs =>
    parseText ((paragraphs.map pyStrip).filter (· ≠ ""))
      (String.intercalate "\n" ((paragraphs.map pyStrip).filter (· ≠ ""))) [] k

/-! ## Helper lemmas for the claims -/

theorem leadsWith_append (p x : List Char) : leadsWith p (p ++ x) = true := by
  induction p with
  | nil => rfl
  | cons a as ih => simp [leadsWith, ih]

theorem trailsWith_append (a t : List Char) : trailsWith (a ++ t) t = true := by
  unfold trailsWith
  rw [List.reverse_append]
  exact leadsWith_append t.reverse a.reverse

theorem string_append_ne_empty_left {s t : String} (h : s.data ≠ []) :
    s ++ t ≠ "" := by
  intro he
  apply h
  have h2 : s.data ++ t.data = [] := by
    rw [← String.data_append, he]
  exact (List.append_eq_nil.mp h2).1

/-- `processSuggestions` is the element-wise validation filter. -/
theorem processSuggestions_eq_filterMap (l : List RawSuggestion) :
    processSuggestions l = l.filterMap validateSuggestion := by
  induction l with
  | nil => rfl
  | cons r rs ih =>
    rw [processSuggestions, List.filterMap_cons]
    cases validateSuggestion r <;> simp [ih]

/-- Taking the first `n` survivors of a filterMap is the filterMap of
the first `n` passers of the filter: the skip-then-cap order of the
suggestion loop. -/
theorem filterMap_take_eq {α β : Type*} (f : α → Option β) :
    ∀ (l : List α) (n : Nat),
      (l.filterMap f).take n =
        ((l.filter (fun x => (f x).isSome)).take n).filterMap f := by
  intro l
  induction l with
  | nil => intro n; simp
  | cons c cs ih =>
    intro n
    rw [List.filterMap_cons, List.filter_cons]
    cases hf : f c with
    | none => simp [hf, ih n]
    | some b =>
      simp only [hf, Option.isSome_some, if_pos]
      cases n with
      | zero => simp
      | succ m =>
        rw [List.take_succ_cons, List.take_succ_cons, List.filterMap_cons]
        simp [hf, ih m]

/-! ## The claims -/

/-- C1 counterexample: with the oracle client never initialized,
`analyze_resume` raises (`Except.error`) instead of returning the
zero-score fallback `AnalysisResult` — the raise at the top of the
method sits before the `try` block. -/
theorem analyzeResume_uninitialized_raises :
    analyzeResume none
      { id := "r1", metadata := { name := "Ada" } } "backend engineer"
      (Except.error "connection refused") =
      Except.error "AI Client not initialized" := rfl

/-- C1 (amended): once the client is initialized, every failure of the
oracle round trip (unavailable oracle, malformed response) yields
`score = 0`, no suggestions, and a non-empty summary naming the failure
truncated to 100 characters; but an uninitialized client makes
`analyze_resume` raise instead. -/
theorem analyzeResume_fails_closed (r : Resume) (jd e : String) :
    analyzeResume (some ()) r jd (Except.error e) =
      Except.ok { score := 0, match_score := none,
                  summary := "Analysis failed: " ++ truncAt 100 e,
                  suggestions := [], keywords := [] } ∧
    ("Analysis failed: " ++ truncAt 100 e) ≠ "" := by
  constructor
  · rfl
  · exact string_append_ne_empty_left (by decide)

/-- C2: the extraction operations never raise past their boundary — the
embedded `_parse_text` is a total function, and a failing byte
extraction is caught and converted into the empty-but-valid Resume
(`metadata.name = "Unknown"`, no sections) plus a descriptive warning. -/
theorem parse_extraction_fails_closed (e : String) (k : Nat) :
    parsePdf (Except.error e) k =
      ((createEmptyResume k, ["PDF parsing error: " ++ e]), k + 1) ∧
    parseDocx (Except.error e) k =
      ((createEmptyResume k, ["DOCX parsing error: " ++ e]), k + 1) ∧
    (createEmptyResume k).metadata.name = "Unknown" ∧
    (createEmptyResume k).sections = [] ∧
    ("PDF parsing error: " ++ e) ≠ "" ∧
    ("DOCX parsing error: " ++ e) ≠ "" := by
  refine ⟨rfl, rfl, rfl, rfl, ?_, ?_⟩
  · exact string_append_ne_empty_left (by decide)
  · exact string_append_ne_empty_left (by decide)

/-- C7: when the oracle returns more than ten well-formed suggestion
objects, `analyze` returns exactly the first ten surviving suggestions
in the oracle-returned relative order — malformed entries are skipped
individually before the cap of ten is applied. -/
theorem analyzeResume_suggestion_cap (data : OracleAnalysis) (r : Resume)
    (jd : String) (res : AnalysisResult)
    (hok : analyzeResume (some ()) r jd (Except.ok data) = Except.ok res)
    (hcount : 10 <
      (data.suggestions.filter (fun s => (validateSuggestion s).isSome)).length) :
    res.suggestions =
      ((data.suggestions.filter (fun s => (validateSuggestion s).isSome)).take 10).filterMap
        validateSuggestion ∧
    res.suggestions.length = 10 := by
  have hres : res.suggestions = (processSuggestions data.suggestions).take 10 := by
    cases hok
    rfl
  rw [hres, processSuggestions_eq_filterMap, filterMap_take_eq]
  refine ⟨rfl, ?_⟩
  have key : ∀ l : List RawSuggestion, (∀ x ∈ l, (validateSuggestion x).isSome) →
      (l.filterMap validateSuggestion).length = l.length := by
    intro l
    induction l with
    | nil => intro _; rfl
    | cons c cs ih =>
      intro hall
      have hc := hall c (List.mem_cons_self _ _)
      rw [List.filterMap_cons]
      cases hf : validateSuggestion c with
      | none => rw [hf] at hc; simp at hc
      | some b =>
        simp only [List.length_cons]
        rw [ih (fun x hx => hall x (List.mem_cons_of_mem _ hx))]
  rw [key]
  · rw [List.length_take]
    omega
  · intro x hx
    have := List.mem_of_mem_take hx
    exact (List.mem_filter.mp this).2

/-- C8 counterexample: with the oracle client never initialized,
`custom_edit` raises (`Except.error`) instead of returning the no-op
fallback — its guard also sits before the `try` block. -/
theorem customEdit_uninitialized_raises :
    customEdit none "Led the team" "add metrics" none
      (Except.error "connection refused") =
      Except.error "AI Client not initialized" := rfl

/-- C8 (amended): once the client is initialized, every failure of the
oracle round trip returns the user's text unchanged together with an
"Error: …" explanation truncated to 100 characters; but an
uninitialized client makes `custom_edit` raise instead. -/
theorem customEdit_fails_closed (current_text user_prompt e : String)
    (context : Option (String × String)) :
    customEdit (some ()) current_text user_prompt context (Except.error e) =
      Except.ok (current_text, "Error: " ++ truncAt 100 e) ∧
    ("Error: " ++ truncAt 100 e) ≠ "" := by
  exact ⟨rfl, string_append_ne_empty_left (by decide)⟩

theorem string_append_ne_empty_right {s t : String} (h : t.data ≠ []) :
    s ++ t ≠ "" := by
  intro he
  apply h
  have h2 : s.data ++ t.data = [] := by
    rw [← String.data_append, he]
  exact (List.append_eq_nil.mp h2).2

/-- C3 counterexample: an Education item whose end date is falsy (the
model field is a required string, so `None` is not even representable)
renders an empty date field — `\textit{}` in the LaTeX output and an
empty `EntryDate` cell in the direct-layout output — and "Present"
appears nowhere. -/
theorem education_empty_date_counterexample :
    containsSeg "Present".data
      (latexRenderEducationItem
        { institution := "MIT", degree := "BS", end_date := "" }).data = false ∧
    containsSeg "\\textit\x7b\x7d".data
      (latexRenderEducationItem
        { institution := "MIT", degree := "BS", end_date := "" }).data = true ∧
    pdfBuildEducationItem { institution := "MIT", degree := "BS", end_date := "" } =
      [Flowable.table [("MIT", "EntryTitle"), ("", "EntryDate")],
       Flowable.para "BS" "EntrySubtitle", Flowable.spacer 1 6] := by
  refine ⟨by decide, by decide, ?_⟩
  simp only [pdfBuildEducationItem, sortByOrder_nil, List.map_nil]
  decide

/-- C3 (amended): an Experience item with an absent end date renders
the literal "Present" in the date position of both renderers, and the
rendered date range is never empty; Education items are different —
their `end_date` is a required string in the model, and a falsy value
renders as an empty date field. -/
theorem experience_absent_end_date_renders_present (e : ExperienceItem)
    (h : e.end_date = none) :
    latexExpEndDate e.end_date = "Present" ∧
    pdfExpEndDate e.end_date = "Present" ∧
    trailsWith (latexExpDateRange e).data "Present".data = true ∧
    trailsWith (pdfExpDateRange e).data "Present".data = true ∧
    latexExpDateRange e ≠ "" ∧
    pdfExpDateRange e ≠ "" := by
  refine ⟨by rw [h]; rfl, by rw [h]; decide, ?_, ?_, ?_, ?_⟩
  · unfold latexExpDateRange
    rw [h]
    show trailsWith (if lStrEsc e.start_date ≠ "" then
        lStrEsc e.start_date ++ " -- " ++ "Present" else "Present").data _ = true
    split
    · rw [String.data_append]
      exact trailsWith_append _ _
    · rfl
  · unfold pdfExpDateRange
    rw [h]
    show trailsWith (if pdfParseMarkdown e.start_date ≠ "" then
        pdfParseMarkdown e.start_date ++ " – " ++ pdfParseMarkdown "Present"
      else pdfParseMarkdown "Present").data _ = true
    split
    · rw [String.data_append]
      show trailsWith (_ ++ "Present".data) _ = true
      exact trailsWith_append _ _
    · rfl
  · unfold latexExpDateRange
    rw [h]
    show (if lStrEsc e.start_date ≠ "" then
        lStrEsc e.start_date ++ " -- " ++ "Present" else "Present") ≠ ""
    split
    · exact string_append_ne_empty_right (by decide)
    · decide
  · unfold pdfExpDateRange
    rw [h]
    show (if pdfParseMarkdown e.start_date ≠ "" then
        pdfParseMarkdown e.start_date ++ " – " ++ pdfParseMarkdown "Present"
      else pdfParseMarkdown "Present") ≠ ""
    split
    · exact string_append_ne_empty_right (by decide)
    · decide

/-- A concrete ongoing role used by the witness of the amended C3
theorem. -/
def ongoingExp : ExperienceItem :=
  { company := "Acme", role := "Engineer", start_date := "Jan 2020",
    end_date := none }

/-- Witness for the amended C3 theorem at a concrete ongoing role. -/
theorem experience_absent_end_date_witness :
    ongoingExp.end_date = none ∧ latexExpDateRange ongoingExp ≠ "" :=
  ⟨rfl, (experience_absent_end_date_renders_present ongoingExp rfl).2.2.2.2.1⟩

theorem replaceSeq_single (p : Char) (rep l : List Char) :
    replaceSeq [p] rep l = l.flatMap (fun c => if c = p then rep else [c]) :=
  replaceAux_singleton p rep l

/-- A single-character replacement pass leaves a non-matching singleton
unchanged. -/
theorem replaceSeq_single_skip {c p : Char} (hc : c ≠ p) (rep : List Char) :
    replaceSeq [p] rep [c] = [c] := by
  rw [replaceSeq_single]
  simp [hc]

/-- A character outside the substitution table passes through the LaTeX
escaping chain unchanged. -/
theorem latexEscChar_id {c : Char}
    (h : c ∉ ['\\', '&', '%', '$', '#', '_', '\x7b', '\x7d', '~', '^']) :
    latexEscChar c = [c] := by
  simp only [List.mem_cons, List.mem_singleton, not_or] at h
  obtain ⟨h1, h2, h3, h4, h5, h6, h7, h8, h9, h10, -⟩ := h
  have e1 := replaceSeq_single_skip h1 "\\textbackslash\x7b\x7d".data
  have e2 := replaceSeq_single_skip h2 "\\&".data
  have e3 := replaceSeq_single_skip h3 "\\%".data
  have e4 := replaceSeq_single_skip h4 "\\$".data
  have e5 := replaceSeq_single_skip h5 "\\#".data
  have e6 := replaceSeq_single_skip h6 "\\_".data
  have e7 := replaceSeq_single_skip h7 "\\\x7b".data
  have e8 := replaceSeq_single_skip h8 "\\\x7d".data
  have e9 := replaceSeq_single_skip h9 "\\textasciitilde\x7b\x7d".data
  have e10 := replaceSeq_single_skip h10 "\\textasciicircum\x7b\x7d".data
  simp only [latexEscChar, escLatexL, latexEscapePairs, List.foldl_cons,
    List.foldl_nil, e1, e2, e3, e4, e5, e6, e7, e8, e9, e10]

/-- The LaTeX escaping chain never creates or destroys an asterisk: the
markup renderer has no bold-span interpretation at all. -/
theorem countChar_star_latexEscChar (c : Char) :
    countChar '*' (latexEscChar c) = countChar '*' [c] := by
  by_cases h : c ∈ ['\\', '&', '%', '$', '#', '_', '\x7b', '\x7d', '~', '^']
  · fin_cases h <;> rfl
  · rw [latexEscChar_id h]

theorem countChar_star_flatMap (l : List Char) :
    countChar '*' (l.flatMap latexEscChar) = countChar '*' l := by
  induction l with
  | nil => rfl
  | cons c cs ih =>
    rw [List.flatMap_cons]
    unfold countChar at ih ⊢
    rw [List.count_append]
    have hc := countChar_star_latexEscChar c
    unfold countChar at hc
    simp only [List.count_cons, List.count_nil, beq_iff_eq] at hc ⊢
    omega

theorem latexEscape_of_ne_empty {s : String} (hs : ¬ s = "") :
    latexEscape s = String.mk (escLatexL s.data) := by
  unfold latexEscape
  rw [if_neg hs]

theorem string_data_mk (l : List Char) : (String.mk l).data = l := rfl

theorem latexEscape_preserves_star (s : String) :
    countChar '*' (latexEscape s).data = countChar '*' s.data := by
  by_cases hs : s = ""
  · subst hs
    rfl
  · rw [latexEscape_of_ne_empty hs, string_data_mk, escLatexL_flatMap]
    exact countChar_star_flatMap s.data

/-- The spec's bold-span example as a bullet. -/
def boldBullet : Bullet :=
  { id := "b1", text := "Reduced costs by **25%**", order := 0 }

/-- C4 counterexample: the LaTeX renderer does not interpret the bold
convention — a bullet with the spec's example text renders with the
literal `**` markers still present (and no `\textbf` for the span). -/
theorem latex_bold_markers_remain :
    containsSeg ['*'] (latexBulletBlock [boldBullet]).data = true ∧
    containsSeg "**25\\%**".data (latexBulletBlock [boldBullet]).data = true := by
  constructor
  · simp only [latexBulletBlock, boldBullet, sortByOrder_singleton,
      List.map_cons, List.map_nil]
    decide
  · simp only [latexBulletBlock, boldBullet, sortByOrder_singleton,
      List.map_cons, List.map_nil]
    decide

/-- C4 (amended): only the direct-layout renderer converts `**text**`
spans — it emits the `<b>…</b>` emphasis primitive with no asterisk of
the marker remaining — while the markup renderer's escaping leaves
every asterisk in place, never producing an emphasis primitive from
them. -/
theorem bold_span_conversion :
    pdfParseMarkdown "Reduced costs by **25%**" = "Reduced costs by <b>25%</b>" ∧
    containsSeg ['*'] (pdfParseMarkdown "Reduced costs by **25%**").data = false ∧
    (∀ s : String, countChar '*' (latexEscape s).data = countChar '*' s.data) :=
  ⟨by decide, by decide, latexEscape_preserves_star⟩

/-! ### The escaping round trip (C5) -/

theorem pdfEscape_of_ne_empty {s : String} (hs : ¬ s = "") :
    pdfEscape s = String.mk (escXmlL s.data) := by
  unfold pdfEscape
  rw [if_neg hs]

theorem latexRead_mk (l : List Char) :
    latexRead (String.mk l) = String.mk (latexReadL l) := rfl

theorem xmlRead_mk (l : List Char) :
    xmlRead (String.mk l) = String.mk (xmlReadL l) := rfl

theorem string_mk_data (s : String) : String.mk s.data = s := rfl

/-- XML escaping expansion of the three reserved characters. -/
theorem xmlEscChar_amp : xmlEscChar '&' = "&amp;".data := rfl

theorem xmlEscChar_lt : xmlEscChar '<' = "&lt;".data := rfl

theorem xmlEscChar_gt : xmlEscChar '>' = "&gt;".data := rfl

/-- A character outside the XML substitution table passes through
unchanged. -/
theorem xmlEscChar_id {c : Char} (h1 : c ≠ '&') (h2 : c ≠ '<') (h3 : c ≠ '>') :
    xmlEscChar c = [c] := by
  have e1 := replaceSeq_single_skip h1 "&amp;".data
  have e2 := replaceSeq_single_skip h2 "&lt;".data
  have e3 := replaceSeq_single_skip h3 "&gt;".data
  simp only [xmlEscChar, escXmlL, xmlEscapePairs, List.foldl_cons,
    List.foldl_nil, e1, e2, e3]

theorem xmlReadL_amp (rest : List Char) :
    xmlReadL ('&' :: ("amp;".data ++ rest)) = '&' :: xmlReadL rest := by
  rw [xmlReadL_cons]
  rfl

theorem xmlReadL_lt (rest : List Char) :
    xmlReadL ('&' :: ("lt;".data ++ rest)) = '<' :: xmlReadL rest := by
  rw [xmlReadL_cons]
  rfl

theorem xmlReadL_gt (rest : List Char) :
    xmlReadL ('&' :: ("gt;".data ++ rest)) = '>' :: xmlReadL rest := by
  rw [xmlReadL_cons]
  rfl

theorem xmlReadL_other {c : Char} (h : c ≠ '&') (rest : List Char) :
    xmlReadL (c :: rest) = c :: xmlReadL rest := by
  rw [xmlReadL_cons]
  simp [h]

/-- The XML-like reading undoes the XML escaping, character by
character, on every input. -/
theorem xmlReadL_escape : ∀ l : List Char,
    xmlReadL (l.flatMap xmlEscChar) = l := by
  intro l
  induction l with
  | nil => rfl
  | cons c cs ih =>
    rw [List.flatMap_cons]
    by_cases h1 : c = '&'
    · subst h1
      rw [xmlEscChar_amp]
      show xmlReadL ('&' :: ("amp;".data ++ cs.flatMap xmlEscChar)) = _
      rw [xmlReadL_amp, ih]
    · by_cases h2 : c = '<'
      · subst h2
        rw [xmlEscChar_lt]
        show xmlReadL ('&' :: ("lt;".data ++ cs.flatMap xmlEscChar)) = _
        rw [xmlReadL_lt, ih]
      · by_cases h3 : c = '>'
        · subst h3
          rw [xmlEscChar_gt]
          show xmlReadL ('&' :: ("gt;".data ++ cs.flatMap xmlEscChar)) = _
          rw [xmlReadL_gt, ih]
        · rw [xmlEscChar_id h1 h2 h3]
          show xmlReadL (c :: cs.flatMap xmlEscChar) = _
          rw [xmlReadL_other h1, ih]

/-- LaTeX escaping expansions of the reserved characters. -/
theorem latexEscChar_amp : latexEscChar '&' = ['\\', '&'] := rfl

theorem latexEscChar_percent : latexEscChar '%' = ['\\', '%'] := rfl

theorem latexEscChar_dollar : latexEscChar '$' = ['\\', '$'] := rfl

theorem latexEscChar_hash : latexEscChar '#' = ['\\', '#'] := rfl

theorem latexEscChar_underscore : latexEscChar '_' = ['\\', '_'] := rfl

theorem latexEscChar_lbrace : latexEscChar '\x7b' = ['\\', '\x7b'] := rfl

theorem latexEscChar_rbrace : latexEscChar '\x7d' = ['\\', '\x7d'] := rfl

theorem latexEscChar_tilde :
    latexEscChar '~' = "\\textasciitilde\x7b\x7d".data := rfl

theorem latexEscChar_circum :
    latexEscChar '^' = "\\textasciicircum\x7b\x7d".data := rfl

theorem latexReadL_esc_single {d : Char}
    (hd : d = '&' ∨ d = '%' ∨ d = '$' ∨ d = '#' ∨ d = '_' ∨ d = '\x7b' ∨ d = '\x7d')
    (rest : List Char) :
    latexReadL ('\\' :: d :: rest) = d :: latexReadL rest := by
  rcases hd with rfl | rfl | rfl | rfl | rfl | rfl | rfl <;>
    (rw [latexReadL_cons]; rfl)

theorem latexReadL_esc_tilde (rest : List Char) :
    latexReadL ('\\' :: ("textasciitilde\x7b\x7d".data ++ rest)) =
      '~' :: latexReadL rest := by
  rw [latexReadL_cons]
  rfl

theorem latexReadL_esc_circum (rest : List Char) :
    latexReadL ('\\' :: ("textasciicircum\x7b\x7d".data ++ rest)) =
      '^' :: latexReadL rest := by
  rw [latexReadL_cons]
  rfl

theorem latexReadL_other {c : Char} (h : ¬ c = '\\') (rest : List Char) :
    latexReadL (c :: rest) = c :: latexReadL rest := by
  rw [latexReadL_cons]
  simp [h]

/-- The compiler reading undoes the LaTeX escaping on every
backslash-free input. -/
theorem latexReadL_escape : ∀ l : List Char, '\\' ∉ l →
    latexReadL (l.flatMap latexEscChar) = l := by
  intro l h
  induction l with
  | nil => rfl
  | cons c cs ih =>
    simp only [List.mem_cons, not_or] at h
    obtain ⟨hc, hcs'⟩ := h
    have hc' : c ≠ '\\' := fun hh => hc hh.symm
    have hcs : '\\' ∉ cs := hcs'
    rw [List.flatMap_cons]
    by_cases h1 : c = '&'
    · subst h1
      rw [latexEscChar_amp]
      show latexReadL ('\\' :: '&' :: cs.flatMap latexEscChar) = _
      rw [latexReadL_esc_single (Or.inl rfl), ih hcs]
    · by_cases h2 : c = '%'
      · subst h2
        rw [latexEscChar_percent]
        show latexReadL ('\\' :: '%' :: cs.flatMap latexEscChar) = _
        rw [latexReadL_esc_single (Or.inr (Or.inl rfl)), ih hcs]
      · by_cases h3 : c = '$'
        · subst h3
          rw [latexEscChar_dollar]
          show latexReadL ('\\' :: '$' :: cs.flatMap latexEscChar) = _
          rw [latexReadL_esc_single (Or.inr (Or.inr (Or.inl rfl))), ih hcs]
        · by_cases h4 : c = '#'
          · subst h4
            rw [latexEscChar_hash]
            show latexReadL ('\\' :: '#' :: cs.flatMap latexEscChar) = _
            rw [latexReadL_esc_single (Or.inr (Or.inr (Or.inr (Or.inl rfl)))),
              ih hcs]
          · by_cases h5 : c = '_'
            · subst h5
              rw [latexEscChar_underscore]
              show latexReadL ('\\' :: '_' :: cs.flatMap latexEscChar) = _
              rw [latexReadL_esc_single
                (Or.inr (Or.inr (Or.inr (Or.inr (Or.inl rfl))))), ih hcs]
            · by_cases h6 : c = '\x7b'
              · subst h6
                rw [latexEscChar_lbrace]
                show latexReadL ('\\' :: '\x7b' :: cs.flatMap latexEscChar) = _
                rw [latexReadL_esc_single
                  (Or.inr (Or.inr (Or.inr (Or.inr (Or.inr (Or.inl rfl)))))),
                  ih hcs]
              · by_cases h7 : c = '\x7d'
                · subst h7
                  rw [latexEscChar_rbrace]
                  show latexReadL ('\\' :: '\x7d' :: cs.flatMap latexEscChar) = _
                  rw [latexReadL_esc_single
                    (Or.inr (Or.inr (Or.inr (Or.inr (Or.inr (Or.inr rfl)))))),
                    ih hcs]
                · by_cases h8 : c = '~'
                  · subst h8
                    rw [latexEscChar_tilde]
                    show latexReadL
                      ('\\' :: ("textasciitilde\x7b\x7d".data ++
                        cs.flatMap latexEscChar)) = _
                    rw [latexReadL_esc_tilde, ih hcs]
                  · by_cases h9 : c = '^'
                    · subst h9
                      rw [latexEscChar_circum]
                      show latexReadL
                        ('\\' :: ("textasciicircum\x7b\x7d".data ++
                          cs.flatMap latexEscChar)) = _
                      rw [latexReadL_esc_circum, ih hcs]
                    · rw [latexEscChar_id (by
                        simp only [List.mem_cons, List.mem_singleton, not_or]
                        exact ⟨hc', h1, h2, h3, h4, h5, h6, h7, h8, h9, by simp⟩)]
                      show latexReadL (c :: cs.flatMap latexEscChar) = _
                      rw [latexReadL_other hc', ih hcs]

/-- C5 counterexample: a single backslash escapes to
`\textbackslash{}`, whose braces are then re-escaped by the later
brace entries of the same substitution chain, so the compiler reads
the result back as `\{}` — the original literal is not recovered. -/
theorem latex_escape_backslash_counterexample :
    latexEscape "\\" = "\\textbackslash\\\x7b\\\x7d" ∧
    latexRead (latexEscape "\\") = "\\\x7b\x7d" ∧
    ("\\\x7b\x7d" : String) ≠ "\\" := by
  refine ⟨by decide, by decide, by decide⟩

/-- C5 (amended): the escaping round trip holds for the XML-like
target on every input, and for the TeX-like target on every input free
of backslashes; an input backslash is corrupted by the chain order
(its expansion's braces are re-escaped by the later brace passes). -/
theorem escaping_round_trip :
    (∀ s : String, '\\' ∉ s.data → latexRead (latexEscape s) = s) ∧
    (∀ s : String, xmlRead (pdfEscape s) = s) := by
  constructor
  · intro s hnb
    by_cases hs : s = ""
    · subst hs
      rfl
    · rw [latexEscape_of_ne_empty hs, latexRead_mk, escLatexL_flatMap,
        latexReadL_escape s.data hnb, string_mk_data]
  · intro s
    by_cases hs : s = ""
    · subst hs
      rfl
    · rw [pdfEscape_of_ne_empty hs, xmlRead_mk, escXmlL_flatMap,
        xmlReadL_escape s.data, string_mk_data]

/-- Witness for the amended C5 theorem: a backslash-free bullet
carrying every other reserved character of both targets round-trips
exactly. -/
theorem escaping_round_trip_witness :
    ('\\' ∉ "50% & $5 #1 _x ~y ^z \x7ba\x7d <b>".data) ∧
    latexRead (latexEscape "50% & $5 #1 _x ~y ^z \x7ba\x7d <b>") =
      "50% & $5 #1 _x ~y ^z \x7ba\x7d <b>" ∧
    xmlRead (pdfEscape "50% & $5 #1 _x ~y ^z \x7ba\x7d <b>") =
      "50% & $5 #1 _x ~y ^z \x7ba\x7d <b>" :=
  ⟨by decide, escaping_round_trip.1 _ (by decide), escaping_round_trip.2 _⟩

/-! ### Heuristic section discard (C9) -/

/-- A header line immediately following another header line leaves the
segmentation state exactly as if only the second header had been seen:
the first header's section has an empty buffer, so closing it appends
nothing and bumps no counter. -/
theorem secStep_header_shadow {h₁ h₂ : String} {t₁ t₂ : SectionType}
    (m₁ : matchSectionHeader h₁ = some t₁)
    (m₂ : matchSectionHeader h₂ = some t₂) (st : SecState) :
    secStep (secStep st h₁) h₂ = secStep st h₂ := by
  unfold secStep
  rw [m₁, m₂]
  unfold closeCurr
  simp

/-- A section produced by `parseSection` has at least one item: the
zero-item case returns `none`. -/
theorem parseSection_some_items {t : SectionType} {title : String}
    {lines : List String} {order : Int} {k k' : Nat} {sec : ResumeSection}
    (h : parseSection t title lines order k = (some sec, k')) :
    sec.items ≠ [] := by
  unfold parseSection at h
  split at h
  next items k2 _ =>
    split at h
    · simp at h
    · next hne =>
      simp only [Prod.mk.injEq, Option.some.injEq] at h
      rw [← h.1]
      simpa using hne

/-- Sections surviving `closeCurr` keep non-empty item lists. -/
theorem closeCurr_items_ne_nil {st : SecState}
    (hinv : ∀ s ∈ st.sections, s.items ≠ []) :
    ∀ s ∈ (closeCurr st).sections, s.items ≠ [] := by
  unfold closeCurr
  split
  · split
    · split
      · next hps =>
        intro s hs
        simp only [List.mem_append, List.mem_singleton] at hs
        rcases hs with hs | hs
        · exact hinv s hs
        · subst hs
          exact parseSection_some_items hps
      · exact hinv
    · exact hinv
  · exact hinv

/-- One segmentation step preserves the non-empty-items invariant. -/
theorem secStep_items_ne_nil {st : SecState} (line : String)
    (hinv : ∀ s ∈ st.sections, s.items ≠ []) :
    ∀ s ∈ (secStep st line).sections, s.items ≠ [] := by
  unfold secStep
  split
  · exact closeCurr_items_ne_nil hinv
  · split
    · exact hinv
    · exact hinv

theorem foldl_secStep_items_ne_nil (lines : List String) :
    ∀ (st : SecState), (∀ s ∈ st.sections, s.items ≠ []) →
      ∀ s ∈ (closeCurr (lines.foldl secStep st)).sections, s.items ≠ [] := by
  induction lines with
  | nil =>
    intro st hinv
    exact closeCurr_items_ne_nil hinv
  | cons line rest ih =>
    intro st hinv
    rw [List.foldl_cons]
    exact ih (secStep st line) (secStep_items_ne_nil line hinv)

/-- C9: a section header line immediately followed by another section
header line contributes no section: the segmentation result is the
same as if the shadowed header were absent, and, in general, every
section in the output of the heuristic extractor has at least one item
(a parsed section with zero items is dropped). -/
theorem header_shadow_discard :
    (∀ (pre post : List String) (h₁ h₂ : String) (t₁ t₂ : SectionType)
       (full : String) (k : Nat),
      matchSectionHeader h₁ = some t₁ → matchSectionHeader h₂ = some t₂ →
      extractSections (pre ++ h₁ :: h₂ :: post) full k =
        extractSections (pre ++ h₂ :: post) full k) ∧
    (∀ (lines : List String) (full : String) (k : Nat),
      ∀ s ∈ (extractSections lines full k).1, s.items ≠ []) := by
  constructor
  · intro pre post h₁ h₂ t₁ t₂ full k m₁ m₂
    unfold extractSections
    rw [List.foldl_append, List.foldl_append, List.foldl_cons, List.foldl_cons,
      List.foldl_cons, secStep_header_shadow m₁ m₂]
  · intro lines full k s hs
    unfold extractSections at hs
    revert hs
    exact fun hs => foldl_secStep_items_ne_nil lines _ (by simp) s hs

/-- Witness for C9: "Experience" immediately followed by "Education"
leaves no experience section behind. -/
theorem header_shadow_discard_witness :
    matchSectionHeader "Experience" = some SectionType.experience ∧
    matchSectionHeader "Education" = some SectionType.education ∧
    extractSections (["Experience"] ++ "Education" :: ["MIT", "BS, 2015"]) "" 0 =
      extractSections (["Education"] ++ ["MIT", "BS, 2015"]) "" 0 :=
  ⟨rfl, rfl,
    header_shadow_discard.1 [] ["MIT", "BS, 2015"] "Experience" "Education"
      SectionType.experience SectionType.education "" 0 rfl rfl⟩

/-! ### Order invariance of the renderers (C6) -/

/-- The bullet children of a content payload (empty for the two
variants without bullets). -/
def bulletsOf : ItemContent → List Bullet
  | ItemContent.experience a => a.bullets
  | ItemContent.education a => a.bullets
  | ItemContent.project a => a.bullets
  | ItemContent.custom a => a.bullets
  | ItemContent.skills _ => []
  | ItemContent.summary _ => []

/-- A content payload with its bullet list cleared: two payloads are
"equal up to bullet order" when their cleared forms coincide and the
bullet lists are permutations. -/
def eraseBullets : ItemContent → ItemContent
  | ItemContent.experience a => ItemContent.experience { a with bullets := [] }
  | ItemContent.education a => ItemContent.education { a with bullets := [] }
  | ItemContent.project a => ItemContent.project { a with bullets := [] }
  | ItemContent.custom a => ItemContent.custom { a with bullets := [] }
  | ItemContent.skills a => ItemContent.skills a
  | ItemContent.summary a => ItemContent.summary a

/-- Payloads that differ only in the arrangement of their bullets. -/
def ContentSibPerm (c₁ c₂ : ItemContent) : Prop :=
  eraseBullets c₁ = eraseBullets c₂ ∧ (bulletsOf c₁).Perm (bulletsOf c₂)

/-- Items that differ only in sibling arrangement below them. -/
def ItemSibPerm (i₁ i₂ : SectionItem) : Prop :=
  i₁.id = i₂.id ∧ i₁.order = i₂.order ∧ ContentSibPerm i₁.content i₂.content

/-- A list is a permutation of another up to the relation `R` on
elements. -/
def SibPermList (R : α → α → Prop) (l₁ l₂ : List α) : Prop :=
  ∃ l, List.Forall₂ R l₁ l ∧ l.Perm l₂

/-- Sections that differ only in sibling arrangement below them. -/
def SectionSibPerm (s₁ s₂ : ResumeSection) : Prop :=
  s₁.id = s₂.id ∧ s₁.type = s₂.type ∧ s₁.title = s₂.title ∧
  s₁.order = s₂.order ∧ SibPermList ItemSibPerm s₁.items s₂.items

/-- Resumes that differ only in the arrangement of sibling arrays (the
sections list, each section's items, each item's bullets). -/
def ResumeSibPerm (r₁ r₂ : Resume) : Prop :=
  r₁.id = r₂.id ∧ r₁.metadata = r₂.metadata ∧ r₁.version = r₂.version ∧
  SibPermList SectionSibPerm r₁.sections r₂.sections

/-- Order keys forming a permutation of `0..n-1`. -/
def OrdersPerm (l : List Int) : Prop :=
  l.Perm (intRange l.length)

instance (l : List Int) : Decidable (OrdersPerm l) := by
  unfold OrdersPerm
  infer_instance

/-- Well-ordered sibling keys at every level of a resume. -/
def ResumeOrdersOK (r : Resume) : Prop :=
  OrdersPerm (r.sections.map (fun s => s.order)) ∧
  ∀ s ∈ r.sections, OrdersPerm (s.items.map (fun i => i.order)) ∧
    ∀ i ∈ s.items, OrdersPerm ((bulletsOf i.content).map (fun b => b.order))

theorem OrdersPerm.nodup {l : List Int} (h : OrdersPerm l) : l.Nodup :=
  h.symm.nodup (intRange_nodup _)

/-- With distinct keys, sorting is invariant under permutation of the
input. -/
theorem sortByOrder_congr_of_perm {α : Type} (key : α → Int) {l₁ l₂ : List α}
    (hp : l₁.Perm l₂) (hnd : (l₁.map key).Nodup) :
    sortByOrder key l₁ = sortByOrder key l₂ := by
  have := @map_sortByOrder_congr α α key id l₁ l₂ (by exact hp.map _) hnd
  simpa using this

/-- Mapping a function that agrees across a `Forall₂` relation. -/
theorem map_eq_of_forall₂ {α β : Type*} {R : α → α → Prop} (f : α → β) :
    ∀ {l₁ l₂ : List α}, List.Forall₂ R l₁ l₂ →
      (∀ a b, R a b → a ∈ l₁ → f a = f b) → l₁.map f = l₂.map f := by
  intro l₁ l₂ h
  induction h with
  | nil => intro _; rfl
  | cons hab htail ih =>
    intro hf
    simp only [List.map_cons]
    rw [hf _ _ hab (List.mem_cons_self _ _),
      ih (fun a b hr ha => hf a b hr (List.mem_cons_of_mem _ ha))]

def c7Raw : RawSuggestion :=
  { title := some "Tighten summary", description := some "Use metrics" }

def c7Data : OracleAnalysis := { suggestions := List.replicate 11 c7Raw }

def c7Resume : Resume := { id := "r1", metadata := { name := "Ada" } }

def c7Result : AnalysisResult :=
  { score := 50, match_score := none, summary := "Analysis complete.",
    suggestions := (processSuggestions c7Data.suggestions).take 10,
    keywords := [] }

theorem analyzeResume_suggestion_cap_witness :
    c7Result.suggestions =
      ((c7Data.suggestions.filter (fun s => (validateSuggestion s).isSome)).take 10).filterMap
        validateSuggestion ∧
    c7Result.suggestions.length = 10 :=
  analyzeResume_suggestion_cap c7Data c7Resume "backend engineer" c7Result
    rfl (by decide)

theorem perm_nil_iff {α : Type*} {l₁ l₂ : List α} (hp : l₁.Perm l₂) :
    l₁ = [] ↔ l₂ = [] := by
  constructor
  · intro h; rw [h] at hp; exact hp.symm.eq_nil
  · intro h; rw [h] at hp; exact hp.eq_nil

theorem sortedBullets_congr {b₁ b₂ : List Bullet} (hp : b₁.Perm b₂)
    (hnd : (b₁.map (fun x => x.order)).Nodup) :
    sortByOrder (fun b => b.order) b₁ = sortByOrder (fun b => b.order) b₂ :=
  sortByOrder_congr_of_perm _ hp hnd

theorem latexBulletBlock_congr {b₁ b₂ : List Bullet} (hp : b₁.Perm b₂)
    (hnd : (b₁.map (fun x => x.order)).Nodup) :
    latexBulletBlock b₁ = latexBulletBlock b₂ := by
  unfold latexBulletBlock
  rw [sortedBullets_congr hp hnd]

theorem latexExpDateRange_congr {a b : ExperienceItem}
    (hs : a.start_date = b.start_date) (hd : a.end_date = b.end_date) :
    latexExpDateRange a = latexExpDateRange b := by
  unfold latexExpDateRange
  rw [hs, hd]

theorem latexRenderExperienceItem_congr {a b : ExperienceItem}
    (he : ({ a with bullets := [] } : ExperienceItem) = { b with bullets := [] })
    (hp : a.bullets.Perm b.bullets)
    (hnd : (a.bullets.map (fun x => x.order)).Nodup) :
    latexRenderExperienceItem a = latexRenderExperienceItem b := by
  injection he with hc hr hl hs hd h0
  simp only [latexRenderExperienceItem, hc, hr, hl,
    latexExpDateRange_congr hs hd, latexBulletBlock_congr hp hnd]
  rcases Decidable.em (a.bullets = []) with hnil | hnil
  · rw [if_neg (by simp [hnil]), if_neg (by simp [(perm_nil_iff hp).mp hnil])]
  · rw [if_pos hnil, if_pos (fun h => hnil ((perm_nil_iff hp).mpr h))]

theorem pdfExpDateRange_congr {a b : ExperienceItem}
    (hs : a.start_date = b.start_date) (hd : a.end_date = b.end_date) :
    pdfExpDateRange a = pdfExpDateRange b := by
  unfold pdfExpDateRange pdfExpEndDate
  rw [hs, hd]

theorem pdfBuildExperienceItem_congr {a b : ExperienceItem}
    (he : ({ a with bullets := [] } : ExperienceItem) = { b with bullets := [] })
    (hp : a.bullets.Perm b.bullets)
    (hnd : (a.bullets.map (fun x => x.order)).Nodup) :
    pdfBuildExperienceItem a = pdfBuildExperienceItem b := by
  injection he with hc hr hl hs hd h0
  simp only [pdfBuildExperienceItem, hc, hr, hl,
    pdfExpDateRange_congr hs hd, sortedBullets_congr hp hnd]

theorem latexRenderEducationItem_congr {a b : EducationItem}
    (he : ({ a with bullets := [] } : EducationItem) = { b with bullets := [] })
    (hp : a.bullets.Perm b.bullets)
    (hnd : (a.bullets.map (fun x => x.order)).Nodup) :
    latexRenderEducationItem a = latexRenderEducationItem b := by
  injection he with hi hdeg hf hl hs hd hg h0
  simp only [latexRenderEducationItem, hi, hdeg, hf, hl, hd, hg,
    latexBulletBlock_congr hp hnd]
  rcases Decidable.em (a.bullets = []) with hnil | hnil
  · have hna : ¬(a.bullets ≠ []) := by simp [hnil]
    have hnb : ¬(b.bullets ≠ []) := by simp [(perm_nil_iff hp).mp hnil]
    rw [if_neg hna, if_neg hnb]
  · rw [if_pos hnil, if_pos (fun h => hnil ((perm_nil_iff hp).mpr h))]

theorem pdfBuildEducationItem_congr {a b : EducationItem}
    (he : ({ a with bullets := [] } : EducationItem) = { b with bullets := [] })
    (hp : a.bullets.Perm b.bullets)
    (hnd : (a.bullets.map (fun x => x.order)).Nodup) :
    pdfBuildEducationItem a = pdfBuildEducationItem b := by
  injection he with hi hdeg hf hl hs hd hg h0
  simp only [pdfBuildEducationItem, hi, hdeg, hf, hl, hd, hg,
    sortedBullets_congr hp hnd]

theorem latexRenderProjectItem_congr {a b : ProjectItem}
    (he : ({ a with bullets := [] } : ProjectItem) = { b with bullets := [] })
    (hp : a.bullets.Perm b.bullets)
    (hnd : (a.bullets.map (fun x => x.order)).Nodup) :
    latexRenderProjectItem a = latexRenderProjectItem b := by
  injection he with hn hdesc ht hu h0
  simp only [latexRenderProjectItem, hn, hdesc, ht, hu,
    latexBulletBlock_congr hp hnd]
  rcases Decidable.em (a.bullets = []) with hnil | hnil
  · have hna : ¬(a.bullets ≠ []) := by simp [hnil]
    have hnb : ¬(b.bullets ≠ []) := by simp [(perm_nil_iff hp).mp hnil]
    rw [if_neg hna, if_neg hnb]
  · rw [if_pos hnil, if_pos (fun h => hnil ((perm_nil_iff hp).mpr h))]

theorem pdfBuildProjectItem_congr {a b : ProjectItem}
    (he : ({ a with bullets := [] } : ProjectItem) = { b with bullets := [] })
    (hp : a.bullets.Perm b.bullets)
    (hnd : (a.bullets.map (fun x => x.order)).Nodup) :
    pdfBuildProjectItem a = pdfBuildProjectItem b := by
  injection he with hn hdesc ht hu h0
  simp only [pdfBuildProjectItem, hn, hdesc, ht, hu,
    sortedBullets_congr hp hnd]

theorem latexRenderCustomItem_congr {a b : CustomItem}
    (he : ({ a with bullets := [] } : CustomItem) = { b with bullets := [] })
    (hp : a.bullets.Perm b.bullets)
    (hnd : (a.bullets.map (fun x => x.order)).Nodup) :
    latexRenderCustomItem a = latexRenderCustomItem b := by
  injection he with ht hst hd hl h0
  simp only [latexRenderCustomItem, ht, hst, hd, hl,
    latexBulletBlock_congr hp hnd]
  rcases Decidable.em (a.bullets = []) with hnil | hnil
  · have hna : ¬(a.bullets ≠ []) := by simp [hnil]
    have hnb : ¬(b.bullets ≠ []) := by simp [(perm_nil_iff hp).mp hnil]
    rw [if_neg hna, if_neg hnb]
  · rw [if_pos hnil, if_pos (fun h => hnil ((perm_nil_iff hp).mpr h))]

theorem pdfBuildCustomItem_congr {a b : CustomItem}
    (he : ({ a with bullets := [] } : CustomItem) = { b with bullets := [] })
    (hp : a.bullets.Perm b.bullets)
    (hnd : (a.bullets.map (fun x => x.order)).Nodup) :
    pdfBuildCustomItem a = pdfBuildCustomItem b := by
  injection he with ht hst hd hl h0
  simp only [pdfBuildCustomItem, ht, hst, hd, hl,
    sortedBullets_congr hp hnd]
  rcases Decidable.em (a.bullets = []) with hnil | hnil
  · have hna : ¬(a.bullets ≠ []) := by simp [hnil]
    have hnb : ¬(b.bullets ≠ []) := by simp [(perm_nil_iff hp).mp hnil]
    rw [if_neg hna, if_neg hnb]
  · rw [if_pos hnil, if_pos (fun h => hnil ((perm_nil_iff hp).mpr h))]

theorem item_render_congr {i₁ i₂ : SectionItem} (h : ItemSibPerm i₁ i₂)
    (hnd : ((bulletsOf i₁.content).map (fun x => x.order)).Nodup) :
    (∀ t, latexRenderItem t i₁ = latexRenderItem t i₂) ∧
    pdfBuildItem i₁ = pdfBuildItem i₂ := by
  obtain ⟨id₁, ord₁, c₁⟩ := i₁
  obtain ⟨id₂, ord₂, c₂⟩ := i₂
  simp only [ItemSibPerm, ContentSibPerm] at h
  obtain ⟨-, -, hce, hbp⟩ := h
  dsimp only at hnd
  cases c₁ <;> cases c₂ <;>
    simp only [eraseBullets] at hce <;>
    simp only [bulletsOf] at hbp hnd <;>
    simp only [latexRenderItem, pdfBuildItem] <;>
    first
    | simp only [reduceCtorEq] at hce
    | (injection hce with hrec
       subst hrec
       exact ⟨fun t => rfl, rfl⟩)
    | (injection hce with hrec
       exact ⟨fun t => latexRenderExperienceItem_congr hrec hbp hnd,
         pdfBuildExperienceItem_congr hrec hbp hnd⟩)
    | (injection hce with hrec
       exact ⟨fun t => latexRenderEducationItem_congr hrec hbp hnd,
         pdfBuildEducationItem_congr hrec hbp hnd⟩)
    | (injection hce with hrec
       exact ⟨fun t => latexRenderProjectItem_congr hrec hbp hnd,
         pdfBuildProjectItem_congr hrec hbp hnd⟩)
    | (injection hce with hrec
       exact ⟨fun t => latexRenderCustomItem_congr hrec hbp hnd,
         pdfBuildCustomItem_congr hrec hbp hnd⟩)

theorem section_render_congr {s₁ s₂ : ResumeSection} (h : SectionSibPerm s₁ s₂)
    (hnd : (s₁.items.map (fun i => i.order)).Nodup)
    (hok : ∀ i ∈ s₁.items, ((bulletsOf i.content).map (fun x => x.order)).Nodup) :
    latexRenderSection s₁ = latexRenderSection s₂ ∧
    pdfBuildSection s₁ = pdfBuildSection s₂ := by
  simp only [SectionSibPerm, SibPermList] at h
  obtain ⟨hid, hty, hti, hord, l, hf, hperm⟩ := h
  have hpair :
      (s₁.items.map (fun i =>
        ((fun i : SectionItem => i.order) i,
         (fun i => (latexRenderItem s₁.type i, pdfBuildItem i)) i))).Perm
      (s₂.items.map (fun i =>
        ((fun i : SectionItem => i.order) i,
         (fun i => (latexRenderItem s₁.type i, pdfBuildItem i)) i))) := by
    have h1 : s₁.items.map (fun i =>
          (i.order, (latexRenderItem s₁.type i, pdfBuildItem i))) =
        l.map (fun i => (i.order, (latexRenderItem s₁.type i, pdfBuildItem i))) := by
      apply map_eq_of_forall₂ _ hf
      intro a b hr ha
      have hic := item_render_congr hr (hok a ha)
      have horder : a.order = b.order := hr.2.1
      rw [horder, hic.1 s₁.type, hic.2]
    simp only [h1]
    exact hperm.map _
  have hmain := map_sortByOrder_congr (fun i : SectionItem => i.order)
    (fun i => (latexRenderItem s₁.type i, pdfBuildItem i)) hpair hnd
  have hlat : (sortByOrder (fun i : SectionItem => i.order) s₁.items).map
        (latexRenderItem s₁.type) =
      (sortByOrder (fun i : SectionItem => i.order) s₂.items).map
        (latexRenderItem s₁.type) := by
    have := congrArg (List.map Prod.fst) hmain
    simpa [List.map_map, Function.comp] using this
  have hpdf : (sortByOrder (fun i : SectionItem => i.order) s₁.items).map
        pdfBuildItem =
      (sortByOrder (fun i : SectionItem => i.order) s₂.items).map
        pdfBuildItem := by
    have := congrArg (List.map Prod.snd) hmain
    simpa [List.map_map, Function.comp] using this
  constructor
  · unfold latexRenderSection
    rw [hti, ← hty, hlat]
  · unfold pdfBuildSection
    rw [hti, hpdf]

/-- C6: the rendered output of both renderers is invariant under
permutations of the stored sibling arrays, and when each sibling
collection's `order` keys are a permutation of `0..n-1` the output
presents each collection in ascending key order `0, 1, …, n-1`:
reordering the stored arrays without touching the keys does not change
either rendered document. -/
theorem render_order_invariant (r₁ r₂ : Resume)
    (hperm : ResumeSibPerm r₁ r₂) (hok : ResumeOrdersOK r₁) :
    latexRender r₁ = latexRender r₂ ∧
    pdfBuildStory r₁ = pdfBuildStory r₂ ∧
    (sortByOrder (fun s => s.order) r₁.sections).map (fun s => s.order) =
      intRange r₁.sections.length ∧
    ∀ s ∈ r₁.sections,
      (sortByOrder (fun i => i.order) s.items).map (fun i => i.order) =
        intRange s.items.length ∧
      ∀ i ∈ s.items,
        (sortByOrder (fun b => b.order) (bulletsOf i.content)).map
            (fun b => b.order) =
          intRange (bulletsOf i.content).length := by
  obtain ⟨hok1, hok2⟩ := hok
  simp only [ResumeSibPerm, SibPermList] at hperm
  obtain ⟨hid, hmeta, hver, l, hf, hp⟩ := hperm
  have hnd : (r₁.sections.map (fun s => s.order)).Nodup := hok1.nodup
  have hpair :
      (r₁.sections.map (fun s =>
        ((fun s : ResumeSection => s.order) s,
         (fun s => (latexRenderSection s, pdfBuildSection s)) s))).Perm
      (r₂.sections.map (fun s =>
        ((fun s : ResumeSection => s.order) s,
         (fun s => (latexRenderSection s, pdfBuildSection s)) s))) := by
    have h1 : r₁.sections.map (fun s =>
          (s.order, (latexRenderSection s, pdfBuildSection s))) =
        l.map (fun s => (s.order, (latexRenderSection s, pdfBuildSection s))) := by
      apply map_eq_of_forall₂ _ hf
      intro a b hr ha
      have hnda : (a.items.map (fun i => i.order)).Nodup := ((hok2 a ha).1).nodup
      have hoka : ∀ i ∈ a.items,
          ((bulletsOf i.content).map (fun x => x.order)).Nodup :=
        fun i hi => (((hok2 a ha).2) i hi).nodup
      have hsc := section_render_congr hr hnda hoka
      have horder : a.order = b.order := hr.2.2.2.1
      rw [horder, hsc.1, hsc.2]
    simp only [h1]
    exact hp.map _
  have hmain := map_sortByOrder_congr (fun s : ResumeSection => s.order)
    (fun s => (latexRenderSection s, pdfBuildSection s)) hpair hnd
  have hlat : (sortByOrder (fun s : ResumeSection => s.order) r₁.sections).map
        latexRenderSection =
      (sortByOrder (fun s : ResumeSection => s.order) r₂.sections).map
        latexRenderSection := by
    have := congrArg (List.map Prod.fst) hmain
    simpa [List.map_map, Function.comp] using this
  have hpdf : (sortByOrder (fun s : ResumeSection => s.order) r₁.sections).map
        pdfBuildSection =
      (sortByOrder (fun s : ResumeSection => s.order) r₂.sections).map
        pdfBuildSection := by
    have := congrArg (List.map Prod.snd) hmain
    simpa [List.map_map, Function.comp] using this
  refine ⟨?_, ?_, ?_, ?_⟩
  · unfold latexRender
    rw [hmeta, hlat]
  · unfold pdfBuildStory
    rw [hmeta, hpdf]
  · unfold OrdersPerm at hok1
    rw [List.length_map] at hok1
    exact sortByOrder_map_key_eq_intRange (fun s => s.order) r₁.sections hok1
  · intro s hs
    obtain ⟨hso, hsb⟩ := hok2 s hs
    constructor
    · unfold OrdersPerm at hso
      rw [List.length_map] at hso
      exact sortByOrder_map_key_eq_intRange (fun i => i.order) s.items hso
    · intro i hi
      have hbo := hsb i hi
      unfold OrdersPerm at hbo
      rw [List.length_map] at hbo
      exact sortByOrder_map_key_eq_intRange (fun b => b.order)
        (bulletsOf i.content) hbo

instance (r : Resume) : Decidable (ResumeOrdersOK r) := by
  unfold ResumeOrdersOK
  infer_instance

def c6B0 : Bullet := { id := "b0", text := "Shipped the parser", order := 0 }

def c6B1 : Bullet := { id := "b1", text := "Led migrations", order := 1 }

def c6Exp : ExperienceItem :=
  { company := "Acme", role := "Engineer", start_date := "2020",
    bullets := [c6B0, c6B1] }

def c6ExpP : ExperienceItem :=
  { company := "Acme", role := "Engineer", start_date := "2020",
    bullets := [c6B1, c6B0] }

def c6Item0 : SectionItem :=
  { id := "i0", order := 0, content := ItemContent.experience c6Exp }

def c6Item0P : SectionItem :=
  { id := "i0", order := 0, content := ItemContent.experience c6ExpP }

def c6Item1 : SectionItem :=
  { id := "i1", order := 1,
    content := ItemContent.summary { text := "Seasoned engineer" } }

def c6Sec0 : ResumeSection :=
  { id := "s0", type := SectionType.experience, title := "Experience",
    order := 0, items := [c6Item0, c6Item1] }

def c6Sec0P : ResumeSection :=
  { id := "s0", type := SectionType.experience, title := "Experience",
    order := 0, items := [c6Item1, c6Item0P] }

def c6Item2 : SectionItem :=
  { id := "i2", order := 0,
    content := ItemContent.summary { text := "Builds reliable systems" } }

def c6Sec1 : ResumeSection :=
  { id := "s1", type := SectionType.summary, title := "Summary",
    order := 1, items := [c6Item2] }

def c6R1 : Resume :=
  { id := "r", metadata := { name := "Ada" }, sections := [c6Sec0, c6Sec1] }

def c6R2 : Resume :=
  { id := "r", metadata := { name := "Ada" }, sections := [c6Sec1, c6Sec0P] }

theorem c6ItemPerm0 : ItemSibPerm c6Item0 c6Item0P :=
  ⟨rfl, rfl, by decide, by decide⟩

theorem c6ItemPerm1 : ItemSibPerm c6Item1 c6Item1 :=
  ⟨rfl, rfl, rfl, List.Perm.refl _⟩

theorem c6SecPerm0 : SectionSibPerm c6Sec0 c6Sec0P :=
  ⟨rfl, rfl, rfl, rfl, [c6Item0P, c6Item1],
    List.Forall₂.cons c6ItemPerm0 (List.Forall₂.cons c6ItemPerm1 List.Forall₂.nil),
    by decide⟩

theorem c6ItemPerm2 : ItemSibPerm c6Item2 c6Item2 :=
  ⟨rfl, rfl, rfl, List.Perm.refl _⟩

theorem c6SecPerm1 : SectionSibPerm c6Sec1 c6Sec1 :=
  ⟨rfl, rfl, rfl, rfl, [c6Item2],
    List.Forall₂.cons c6ItemPerm2 List.Forall₂.nil, List.Perm.refl _⟩

theorem c6SibPerm : ResumeSibPerm c6R1 c6R2 :=
  ⟨rfl, rfl, rfl, [c6Sec0P, c6Sec1],
    List.Forall₂.cons c6SecPerm0 (List.Forall₂.cons c6SecPerm1 List.Forall₂.nil),
    by decide⟩

theorem render_order_invariant_witness :
    ResumeOrdersOK c6R1 ∧
    (latexRender c6R1 = latexRender c6R2 ∧
      pdfBuildStory c6R1 = pdfBuildStory c6R2 ∧
      (sortByOrder (fun s => s.order) c6R1.sections).map (fun s => s.order) =
        intRange c6R1.sections.length ∧
      ∀ s ∈ c6R1.sections,
        (sortByOrder (fun i => i.order) s.items).map (fun i => i.order) =
          intRange s.items.length ∧
        ∀ i ∈ s.items,
          (sortByOrder (fun b => b.order) (bulletsOf i.content)).map
              (fun b => b.order) =
            intRange (bulletsOf i.content).length) :=
  ⟨by decide, render_order_invariant c6R1 c6R2 c6SibPerm (by decide)⟩

/-! ### Order keys produced by the heuristic extraction (C10) -/

/-- Strictly ascending bullet order keys of one item. -/
def bulletsSorted (i : SectionItem) : Prop :=
  ((bulletsOf i.content).map (fun b => b.order)).Pairwise (fun a b => a < b)

/-- Consecutive item order keys `0..n-1` with strictly ascending bullet
keys inside every item. -/
def itemsOK (l : List SectionItem) : Prop :=
  l.map (fun i => i.order) = intRange l.length ∧ ∀ i ∈ l, bulletsSorted i

theorem intRange_succ (n : Nat) : intRange (n + 1) = intRange n ++ [(n : Int)] := by
  unfold intRange
  rw [List.range_succ, List.map_append]
  rfl

theorem ordersRange_append {bs : List Bullet} {b : Bullet}
    (h : bs.map (fun x => x.order) = intRange bs.length)
    (hb : b.order = (bs.length : Int)) :
    (bs ++ [b]).map (fun x => x.order) = intRange (bs ++ [b]).length := by
  simp only [List.map_append, List.length_append, List.map_cons, List.map_nil,
    List.length_singleton, h, hb, intRange_succ]

theorem bulletsSorted_of_range {bs : List Bullet}
    (h : bs.map (fun x => x.order) = intRange bs.length) :
    (bs.map (fun x => x.order)).Pairwise (fun a b : Int => a < b) := by
  rw [h]
  exact intRange_pairwise_lt _

theorem itemsOK_nil : itemsOK [] :=
  ⟨rfl, by intro i hi; simp at hi⟩

theorem itemsOK_append {l : List SectionItem} {i : SectionItem}
    (h : itemsOK l) (hord : i.order = (l.length : Int)) (hb : bulletsSorted i) :
    itemsOK (l ++ [i]) := by
  constructor
  · simp only [List.map_append, List.length_append, List.map_cons, List.map_nil,
      List.length_singleton, h.1, hord, intRange_succ]
  · intro j hj
    rcases List.mem_append.mp hj with hq | hq
    · exact h.2 j hq
    · simp at hq
      rw [hq]
      exact hb

theorem parseEducationSection_ok (lines : List String) (k : Nat) :
    itemsOK (parseEducationSection lines k).1 := by
  unfold parseEducationSection
  split
  · exact itemsOK_nil
  · constructor
    · rfl
    · intro i hi
      simp only [List.mem_singleton] at hi
      rw [hi]
      simp [bulletsSorted, bulletsOf]

theorem parseSkillsSection_ok (lines : List String) (k : Nat) :
    itemsOK (parseSkillsSection lines k).1 := by
  simp only [parseSkillsSection]
  repeat' split
  all_goals
    first
    | exact itemsOK_nil
    | exact ⟨rfl, by
        intro i hi
        simp only [List.mem_singleton] at hi
        rw [hi]
        simp [bulletsSorted, bulletsOf]⟩

theorem parseSummarySection_ok (lines : List String) (k : Nat) :
    itemsOK (parseSummarySection lines k).1 := by
  simp only [parseSummarySection]
  split
  · constructor
    · rfl
    · intro i hi
      simp only [List.mem_singleton] at hi
      rw [hi]
      simp [bulletsSorted, bulletsOf]
  · exact itemsOK_nil

theorem genericBullets_orders : ∀ (lines : List String) (i k : Nat),
    (((genericBullets lines i k).1.map (fun b => b.order)).Pairwise
      (fun a b : Int => a < b)) ∧
    ∀ b ∈ (genericBullets lines i k).1, (i : Int) ≤ b.order := by
  intro lines
  induction lines with
  | nil =>
    intro i k
    exact ⟨List.Pairwise.nil, by intro b hb; simp [genericBullets] at hb⟩
  | cons line rest ih =>
    intro i k
    unfold genericBullets
    split
    · obtain ⟨hpw, hge⟩ := ih (i + 1) (k + 1)
      rcases hgb : genericBullets rest (i + 1) (k + 1) with ⟨bs, k2⟩
      rw [hgb] at hpw hge
      simp only
      constructor
      · simp only [List.map_cons]
        refine List.Pairwise.cons ?_ hpw
        intro y hy
        rw [List.mem_map] at hy
        obtain ⟨b, hb, hby⟩ := hy
        have := hge b hb
        have hcast : ((i : Int) : Int) < ((i + 1 : Nat) : Int) := by
          push_cast
          omega
        rw [← hby]
        calc (i : Int) < ((i + 1 : Nat) : Int) := hcast
          _ ≤ b.order := this
      · intro b hb
        rcases List.mem_cons.mp hb with hq | hq
        · rw [hq]
        · have := hge b hq
          have : ((i + 1 : Nat) : Int) ≤ b.order := this
          push_cast at this ⊢
          omega
    · obtain ⟨hpw, hge⟩ := ih (i + 1) k
      refine ⟨hpw, fun b hb => ?_⟩
      have := hge b hb
      push_cast at this ⊢
      omega

theorem parseGenericSection_ok (lines : List String) (k : Nat) :
    itemsOK (parseGenericSection lines k).1 := by
  unfold parseGenericSection
  rcases hgb : genericBullets lines 0 k with ⟨bullets, k2⟩
  simp only
  split
  · constructor
    · rfl
    · intro i hi
      simp only [List.mem_singleton] at hi
      rw [hi]
      simp only [bulletsSorted, bulletsOf]
      have := (genericBullets_orders lines 0 k).1
      rw [hgb] at this
      exact this
  · exact itemsOK_nil

/-- The loop invariant of `_parse_experience_section`: consecutive item
orders, the running counter equal to the item count, and consecutive
bullet orders in the pending-entry buffer. -/
def ExpInv (st : ExpState) : Prop :=
  itemsOK st.items ∧ st.item_order = (st.items.length : Int) ∧
  st.bullets.map (fun b => b.order) = intRange st.bullets.length

theorem expStep_inv {st : ExpState} (line : String) (h : ExpInv st) :
    ExpInv (expStep st line) := by
  obtain ⟨h1, h2, h3⟩ := h
  simp only [expStep]
  split
  · exact ⟨h1, h2, h3⟩
  · split
    · split
      · exact ⟨h1, h2, ordersRange_append h3 rfl⟩
      · exact ⟨h1, h2, h3⟩
    · split
      · cases hent : st.entry with
        | some e =>
          refine ⟨?_, ?_, rfl⟩
          · refine itemsOK_append h1 h2 ?_
            simp only [bulletsSorted, bulletsOf]
            exact bulletsSorted_of_range h3
          · simp only [List.length_append, List.length_singleton]
            push_cast
            omega
        | none => exact ⟨h1, h2, h3⟩
      · exact ⟨h1, h2, h3⟩

theorem expFinal_ok {st : ExpState} (h : ExpInv st) : itemsOK (expFinal st).1 := by
  obtain ⟨h1, h2, h3⟩ := h
  unfold expFinal
  split
  · refine itemsOK_append h1 h2 ?_
    simp only [bulletsSorted, bulletsOf]
    exact bulletsSorted_of_range h3
  · exact h1

theorem foldl_expStep_inv (lines : List String) : ∀ {st : ExpState},
    ExpInv st → ExpInv (lines.foldl expStep st) := by
  induction lines with
  | nil => intro st h; exact h
  | cons l rest ih => intro st h; exact ih (expStep_inv l h)

theorem parseExperienceSection_ok (lines : List String) (k : Nat) :
    itemsOK (parseExperienceSection lines k).1 := by
  unfold parseExperienceSection
  exact expFinal_ok (foldl_expStep_inv lines ⟨itemsOK_nil, rfl, rfl⟩)

/-- The loop invariant of `_parse_projects_section`. -/
def ProjInv (st : ProjState) : Prop :=
  itemsOK st.items ∧ st.item_order = (st.items.length : Int) ∧
  st.bullets.map (fun b => b.order) = intRange st.bullets.length

theorem projStep_inv {st : ProjState} (line : String) (h : ProjInv st) :
    ProjInv (projStep st line) := by
  obtain ⟨h1, h2, h3⟩ := h
  simp only [projStep]
  split
  · exact ⟨h1, h2, h3⟩
  · split
    · split
      · exact ⟨h1, h2, ordersRange_append h3 rfl⟩
      · exact ⟨h1, h2, h3⟩
    · cases hent : st.project with
      | some p =>
        refine ⟨?_, ?_, rfl⟩
        · refine itemsOK_append h1 h2 ?_
          simp only [bulletsSorted, bulletsOf]
          exact bulletsSorted_of_range h3
        · simp only [List.length_append, List.length_singleton]
          push_cast
          omega
      | none => exact ⟨h1, h2, h3⟩

theorem projFinal_ok {st : ProjState} (h : ProjInv st) :
    itemsOK (projFinal st).1 := by
  obtain ⟨h1, h2, h3⟩ := h
  unfold projFinal
  split
  · refine itemsOK_append h1 h2 ?_
    simp only [bulletsSorted, bulletsOf]
    exact bulletsSorted_of_range h3
  · exact h1

theorem foldl_projStep_inv (lines : List String) : ∀ {st : ProjState},
    ProjInv st → ProjInv (lines.foldl projStep st) := by
  induction lines with
  | nil => intro st h; exact h
  | cons l rest ih => intro st h; exact ih (projStep_inv l h)

theorem parseProjectsSection_ok (lines : List String) (k : Nat) :
    itemsOK (parseProjectsSection lines k).1 := by
  unfold parseProjectsSection
  exact projFinal_ok (foldl_projStep_inv lines ⟨itemsOK_nil, rfl, rfl⟩)

theorem parseSection_ok {t : SectionType} {title : String}
    {lines : List String} {order : Int} {k k' : Nat} {sec : ResumeSection}
    (h : parseSection t title lines order k = (some sec, k')) :
    sec.order = order ∧ itemsOK sec.items := by
  cases t <;>
    (unfold parseSection at h
     split at h
     next items k2 heq =>
       split at h
       · simp at h
       · simp only [Prod.mk.injEq, Option.some.injEq] at h
         have hfst := congrArg Prod.fst heq
         dsimp only at hfst
         constructor
         · rw [← h.1]
         · rw [← h.1]
           show itemsOK items
           rw [← hfst]
           first
           | exact parseExperienceSection_ok lines k
           | exact parseEducationSection_ok lines k
           | exact parseSkillsSection_ok lines k
           | exact parseSummarySection_ok lines k
           | exact parseProjectsSection_ok lines k
           | exact parseGenericSection_ok lines k)

theorem secmap_append {l : List ResumeSection} {sec : ResumeSection}
    (h : l.map (fun s => s.order) = intRange l.length)
    (hord : sec.order = (l.length : Int)) :
    (l ++ [sec]).map (fun s => s.order) = intRange (l ++ [sec]).length := by
  simp only [List.map_append, List.length_append, List.map_cons, List.map_nil,
    List.length_singleton, h, hord, intRange_succ]

/-- The loop invariant of `_extract_sections`: consecutive section
orders, the running counter equal to the section count, and the
item/bullet key invariant inside every emitted section. -/
def SecInv (st : SecState) : Prop :=
  st.sections.map (fun s => s.order) = intRange st.sections.length ∧
  st.order = (st.sections.length : Int) ∧
  ∀ s ∈ st.sections, itemsOK s.items

theorem closeCurr_inv {st : SecState} (h : SecInv st) : SecInv (closeCurr st) := by
  obtain ⟨h1, h2, h3⟩ := h
  unfold closeCurr
  split
  · split
    · split
      next sec k2 heq =>
        have hps := parseSection_ok heq
        refine ⟨?_, ?_, ?_⟩
        · exact secmap_append h1 (by rw [hps.1, h2])
        · simp only [List.length_append, List.length_singleton]
          push_cast
          omega
        · intro s hs
          rcases List.mem_append.mp hs with hq | hq
          · exact h3 s hq
          · simp at hq
            rw [hq]
            exact hps.2
      next k2 heq => exact ⟨h1, h2, h3⟩
    · exact ⟨h1, h2, h3⟩
  · exact ⟨h1, h2, h3⟩

theorem secStep_inv {st : SecState} (line : String) (h : SecInv st) :
    SecInv (secStep st line) := by
  unfold secStep
  split
  · have hc := closeCurr_inv h
    exact ⟨hc.1, hc.2.1, hc.2.2⟩
  · split
    · exact ⟨h.1, h.2.1, h.2.2⟩
    · exact h

theorem foldl_secStep_inv (lines : List String) : ∀ {st : SecState},
    SecInv st → SecInv (lines.foldl secStep st) := by
  induction lines with
  | nil => intro st h; exact h
  | cons l rest ih => intro st h; exact ih (secStep_inv l h)

theorem extractSections_ok (lines : List String) (full : String) (k : Nat) :
    ((extractSections lines full k).1.map (fun s => s.order) =
      intRange (extractSections lines full k).1.length) ∧
    ∀ s ∈ (extractSections lines full k).1, itemsOK s.items := by
  unfold extractSections
  have hbase : SecInv (SecState.mk [] none "" [] 0 k) :=
    ⟨rfl, rfl, by intro s hs; simp at hs⟩
  have h := closeCurr_inv (foldl_secStep_inv lines hbase)
  exact ⟨h.1, h.2.2⟩

/-- C10: every Resume produced by the heuristic extraction carries, in
every sibling group, order keys strictly increasing in list position:
sections and items are numbered consecutively `0..n-1`, and the
bullets of every item carry strictly ascending keys (consecutive for
experience/project bullets, the source line index for the bullets of a
generic custom item) — so keys are unique within each group and list
order agrees with key order. -/
theorem parser_order_invariant (lines : List String) (full_text : String)
    (warnings : List String) (k : Nat) :
    ((parseText lines full_text warnings k).1.1.sections.map (fun s => s.order) =
      intRange (parseText lines full_text warnings k).1.1.sections.length) ∧
    ∀ s ∈ (parseText lines full_text warnings k).1.1.sections,
      (s.items.map (fun i => i.order) = intRange s.items.length) ∧
      ∀ i ∈ s.items,
        ((bulletsOf i.content).map (fun b => b.order)).Pairwise
          (fun a b : Int => a < b) := by
  have h := extractSections_ok lines full_text k
  rcases hext : extractSections lines full_text k with ⟨sections, k2⟩
  rw [hext] at h
  simp only [parseText, hext]
  exact ⟨h.1, fun s hs => ⟨(h.2 s hs).1, fun i hi => (h.2 s hs).2 i hi⟩⟩
